import Mathlib

/-!
Verification of the network expansion / graph construction core of
`MinetCreate.py` (POPPY).  The Python functions are shallowly embedded:
Python dictionaries become association lists, Python sets become
duplicate-free lists built with `setInsert`, an uncaught Python exception
becomes `none` in an `Option` result, and the remote MINE database becomes
an explicit `MineDB` parameter returning `Option Record`.
-/

namespace MinetCreate

/-! ## Association-list dictionaries and list-backed sets -/

/-- Lookup in an association list (a Python `dict` access that may fail). -/
def alookup {κ α : Type} [DecidableEq κ] : List (κ × α) → κ → Option α
  | [], _ => none
  | (k, v) :: rest, key => if k = key then some v else alookup rest key

/-- Replace every binding of key `k` by `(k, v)`, in place. -/
def replaceKey {κ α : Type} [DecidableEq κ] : List (κ × α) → κ → α → List (κ × α)
  | [], _, _ => []
  | (k1, v1) :: rest, k, v =>
    if k1 = k then (k, v) :: replaceKey rest k v
    else (k1, v1) :: replaceKey rest k v

/-- Python `d[k] = v`: replace the binding if the key is present, otherwise
append a new binding (preserving insertion order like a Python dict). -/
def dictInsert {κ α : Type} [DecidableEq κ] (d : List (κ × α)) (k : κ) (v : α) :
    List (κ × α) :=
  if (alookup d k).isSome then replaceKey d k v else d ++ [(k, v)]

/-- The keys of a dictionary, in insertion order. -/
def dictKeys {κ α : Type} (d : List (κ × α)) : List κ := d.map Prod.fst

/-- Python `s.add(x)` on a set represented as a duplicate-free list. -/
def setInsert {κ : Type} [DecidableEq κ] (s : List κ) (x : κ) : List κ :=
  if x ∈ s then s else s ++ [x]

/-- Python `set(l)`: deduplicate keeping first occurrences. -/
def listToSet {κ : Type} [DecidableEq κ] (l : List κ) : List κ :=
  l.foldl setInsert []

/-! ## Records

A MINE/KEGG record is a Python dictionary; we model the fields the graph
construction code reads, with `none` for an absent key. -/

/-- A compound or reaction record (`_id`, `Formula`, `Reactants`, `Products`,
`Reactant_in`, `Product_of`, `Reactions`, `DB_links['KEGG']`, `RPair`). -/
structure Record where
  _id : Option String := none
  Formula : Option String := none
  Reactants : Option (List (Nat × String)) := none
  Products : Option (List (Nat × String)) := none
  Reactant_in : Option (List String) := none
  Product_of : Option (List String) := none
  Reactions : Option (List String) := none
  DB_links_KEGG : Option (List String) := none
  RPair : Option (List (String × String × String)) := none
deriving DecidableEq

/-! ## Carbon counting (`LimitCarbon`) -/

/-- Value of a non-empty digit string (`int()` on the digits matched by the
regular expression `C[0-9]*`). -/
def parsePosDigits : List Char → Nat → Nat
  | [], acc => acc
  | ch :: rest, acc => parsePosDigits rest (acc * 10 + (ch.toNat - '0'.toNat))

/-- Python `int(ds)` on a digit string: `ValueError` (`none`) on the empty
string, otherwise the value. -/
def parseNatDigits (ds : List Char) : Option Nat :=
  if ds.isEmpty then none else some (parsePosDigits ds 0)

/-- `re.search('C[0-9]*', formula)` followed by the `int`-parse of
`match.group(0).split('C')[1]`: find the first `C`, take the maximal digit
run after it; no `C` gives count 0, an empty digit run gives count 1
(the `ValueError` branch of the source). -/
def carbonCountOfFormula (formula : String) : Nat :=
  match formula.data.dropWhile (fun ch => ch != 'C') with
  | [] => 0
  | _ :: rest =>
    match parseNatDigits (rest.takeWhile Char.isDigit) with
    | none => 1
    | some n => n

/-- `LimitCarbon(comp, C_limit)`: `True` iff the compound's carbon count
exceeds the limit; a compound without a `Formula` key passes (returns
`False` with a warning). -/
def LimitCarbon (comp : Record) (C_limit : Nat) : Bool :=
  match comp.Formula with
  | none => false
  | some formula => decide (carbonCountOfFormula formula > C_limit)

/-- Carbon count as the specification words it: "parsed from its formula as
the integer following the first `C` token; absent match ⇒ 0 carbons;
malformed digit sequence ⇒ defaults to 1".  Stated as its own recursion so
the agreement with the source's regex mechanics is a real theorem. -/
def specCarbonCount : List Char → Nat
  | [] => 0
  | ch :: rest =>
    if ch = 'C' then
      match parseNatDigits (rest.takeWhile Char.isDigit) with
      | none => 1
      | some n => n
    else specCarbonCount rest

/-! ## The graph model

A `networkx.DiGraph` with the attributes the source uses: numbered nodes
carrying `type`/`mid`/`start`/`c` attributes, a directed edge set, and the
graph-level side tables `cmid2node` and `mine_data`. -/

/-- Node attributes (`type='c'|'rf'|'pf'|'rr'|'pr'`, `mid`, optional `start`
flag for compound nodes, optional member-node set `c` for reaction nodes). -/
structure Node where
  type : String
  mid : String
  start : Option Bool := none
  c : Option (List Nat) := none
deriving DecidableEq

/-- The directed graph with its side tables. -/
structure Graph where
  nodes : List (Nat × Node) := []
  edges : List (Nat × Nat) := []
  cmid2node : List (String × Nat) := []
  mine_data : List (String × Record) := []
deriving DecidableEq

/-- `graph.add_node(n, ...)` (updates attributes when `n` already exists,
exactly like networkx). -/
def addNode (g : Graph) (n : Nat) (nd : Node) : Graph :=
  { g with nodes := dictInsert g.nodes n nd }

/-- `graph.add_edge(a, b)` between existing nodes (edge sets are
duplicate-free). -/
def addEdge (g : Graph) (e : Nat × Nat) : Graph :=
  { g with edges := setInsert g.edges e }

/-! ## `CheckConnection` -/

/-- `CheckConnection(minetwork, c_node, r_node)`.  Reading the `mid`/`type`
attributes of a non-existent node raises `KeyError` in Python (modelled as
`none`); the `mine_data` lookups are inside `try`/`except` and never
raise. -/
def CheckConnection (minetwork : Graph) (c_node r_node : Nat) : Option Bool :=
  match alookup minetwork.nodes c_node, alookup minetwork.nodes r_node with
  | some cn, some rn =>
    let c_mid := cn.mid
    let r_mid := rn.mid
    let r_type := rn.type
    let check_r : Bool :=
      if r_type = "rf" ∨ r_type = "pr" then
        match alookup minetwork.mine_data c_mid with
        | none => false
        | some rc =>
          match rc.Reactant_in with
          | none => false
          | some l => decide (r_mid ∈ l)
      else false
    let check_p : Bool :=
      if r_type = "pf" ∨ r_type = "rr" then
        match alookup minetwork.mine_data c_mid with
        | none => false
        | some rc =>
          match rc.Product_of with
          | none => false
          | some l => decide (r_mid ∈ l)
      else false
    some (check_r || check_p)
  | _, _ => none

/-! ## `AddCompoundNode` -/

/-- The `start` flag computation of `AddCompoundNode`: set from the start
set, the `C`-prefixed analogue of the id, or the inorganic-`X` rule; an
empty id reaches `mid[0]` and raises `IndexError` (`none`). -/
def compoundStartFlag (compound : Record) (mid : String)
    (start_comp_ids : List String) : Option Bool :=
  if mid ∈ start_comp_ids then some true
  else if ("C" ++ mid.drop 1) ∈ start_comp_ids then some true
  else
    match mid.data with
    | [] => none
    | ch :: _ => some (ch == 'X' && !(LimitCarbon compound 0))

/-- `AddCompoundNode(graph, compound, start_comp_ids)`.  A compound without
an `_id` is skipped with a warning; otherwise the node is numbered
`len(nodes)+1` and indexed in `cmid2node`. -/
def AddCompoundNode (graph : Graph) (compound : Record)
    (start_comp_ids : List String) : Option Graph :=
  let N := graph.nodes.length + 1
  match compound._id with
  | none => some graph
  | some mid =>
    match compoundStartFlag compound mid start_comp_ids with
    | none => none
    | some start =>
      let g := addNode graph N { type := "c", mid := mid, start := some start }
      some { g with cmid2node := dictInsert g.cmid2node mid N }

/-! ## `AddQuadReactionNode` -/

/-- Resolve a list of compound ids through `cmid2node`; `none` when any
participant is missing from the index (the source then warns and returns
the graph unchanged). -/
def resolveComps (graph : Graph) : List String → Option (List Nat)
  | [] => some []
  | c_mid :: rest =>
    match alookup graph.cmid2node c_mid with
    | none => none
    | some node =>
      match resolveComps graph rest with
      | none => none
      | some ns => some (node :: ns)

/-- The compound-to-role connection loop of `AddQuadReactionNode`: for each
member node, add the edge iff `CheckConnection` attests it.  `toRole` picks
the edge direction (compound→role for `rf`/`rr`, role→compound for
`pf`/`pr`).  `none` propagates a `CheckConnection` exception. -/
def connectRole (g : Graph) (cs : List Nat) (N : Nat) (toRole : Bool) :
    Option Graph :=
  match cs with
  | [] => some g
  | c_node :: rest =>
    match CheckConnection g c_node N with
    | none => none
    | some b =>
      connectRole
        (if b then addEdge g (if toRole then (c_node, N) else (N, c_node)) else g)
        rest N toRole

/-- The node/edge-building tail of `AddQuadReactionNode`, once every
participant has been resolved: add the four role nodes (numbered from
`len(nodes)+1` of the incoming graph), the attested compound-to-role edges,
and the two role-to-role edges.  `rf` holds the reactant member nodes (also
the `pr` members), `pf` the product member nodes (also the `rr` members);
a `CheckConnection` exception propagates as `none`. -/
def quadBody (graph : Graph) (rxn_id : String) (rf pf : List Nat) :
    Option Graph :=
  (connectRole (addNode graph (graph.nodes.length + 1)
      { type := "rf", mid := rxn_id, c := some rf }) rf
      (graph.nodes.length + 1) true).bind
    (fun g1 =>
      (connectRole (addNode g1 (graph.nodes.length + 2)
          { type := "pf", mid := rxn_id, c := some pf }) pf
          (graph.nodes.length + 2) false).bind
        (fun g2 =>
          (connectRole (addNode
              (addEdge g2 (graph.nodes.length + 1, graph.nodes.length + 2))
              (graph.nodes.length + 3)
              { type := "rr", mid := rxn_id, c := some pf }) pf
              (graph.nodes.length + 3) true).bind
            (fun g3 =>
              (connectRole (addNode g3 (graph.nodes.length + 4)
                  { type := "pr", mid := rxn_id, c := some rf }) rf
                  (graph.nodes.length + 4) false).map
                (fun g4 =>
                  addEdge g4 (graph.nodes.length + 3, graph.nodes.length + 4)))))

/-- `AddQuadReactionNode(graph, rxn)`: validate the reaction, resolve every
participant (warning and returning the graph unchanged when any is
missing), then build the quad node group. -/
def AddQuadReactionNode (graph : Graph) (rxn : Record) : Option Graph :=
  match rxn._id, rxn.Reactants, rxn.Products with
  | some rxn_id, some rxn_reactants, some rxn_products =>
    let reactants_f := listToSet (rxn_reactants.map Prod.snd)
    let products_f := listToSet (rxn_products.map Prod.snd)
    match resolveComps graph reactants_f with
    | none => some graph
    | some rf_nodes =>
      match resolveComps graph products_f with
      | none => some graph
      | some pf_nodes =>
        quadBody graph rxn_id (listToSet rf_nodes) (listToSet pf_nodes)
  | _, _, _ => some graph

/-! ## Network expansion (`GetRawNetwork`)

The remote MINE database is a parameter; the threaded batch fetchers return
a list of optional records aligned with the queried ids (the source
re-derives identity from each record's own `_id`, never from result
order). -/

/-- The record repository collaborator. -/
structure MineDB where
  getComp : String → Option Record
  getRxn : String → Option Record

/-- `ThreadedGetComps(con, db, ids)`. -/
def ThreadedGetComps (con : MineDB) (ids : List String) : List (Option Record) :=
  ids.map con.getComp

/-- `ThreadedGetRxns(con, db, ids)`. -/
def ThreadedGetRxns (con : MineDB) (ids : List String) : List (Option Record) :=
  ids.map con.getRxn

/-- `ExtractCompReactionIds(comp)`: `Reactant_in` then `Product_of`, each
absent list contributing nothing. -/
def ExtractCompReactionIds (comp : Record) : List String :=
  comp.Reactant_in.getD [] ++ comp.Product_of.getD []

/-- `ExtractReactionCompIds(rxn)`: reactant then product compound ids. -/
def ExtractReactionCompIds (rxn : Record) : List String :=
  (rxn.Reactants.getD []).map Prod.snd ++ (rxn.Products.getD []).map Prod.snd

/-- The mutable state of one `GetRawNetwork` run. -/
structure ExpandState where
  comp_dict : List (String × Record)
  rxn_dict : List (String × Record)
  comps : Nat
  extended_comp_ids : List String
  rxn_exceeding_C_limit : List String
  comp_exceeding_C_limit : List String
  comp_cache : List (String × Record)
deriving DecidableEq

/-- Step 0 of `GetRawNetwork`: add each fetched seed compound unless it is
`None`, lacks an `_id`, or exceeds the carbon limit; count additions. -/
def addSeedComps (C_limit : Nat) :
    List (Option Record) → List (String × Record) × Nat →
    List (String × Record) × Nat
  | [], acc => acc
  | none :: rest, acc => addSeedComps C_limit rest acc
  | some comp :: rest, (comp_dict, comps) =>
    match comp._id with
    | none => addSeedComps C_limit rest (comp_dict, comps)
    | some comp_id =>
      if LimitCarbon comp C_limit then addSeedComps C_limit rest (comp_dict, comps)
      else addSeedComps C_limit rest (dictInsert comp_dict comp_id comp, comps + 1)

/-- The per-reaction-id filter of the download-candidate collection:
reactions already fetched or already known to exceed the carbon limit are
not downloaded again. -/
def collectRxnStep (st : ExpandState) (acc : List String) (rxn_id : String) :
    List String :=
  if (alookup st.rxn_dict rxn_id).isSome ∨ rxn_id ∈ st.rxn_exceeding_C_limit
  then acc else setInsert acc rxn_id

/-- Per-compound step of the reaction-candidate collection: union in the
reaction ids of one stored compound. -/
def collectRxnFromComp (st : ExpandState) (acc : List String) (comp_id : String) :
    List String :=
  match alookup st.comp_dict comp_id with
  | none => acc
  | some comp => (ExtractCompReactionIds comp).foldl (collectRxnStep st) acc

/-- Candidate reaction ids of a step: reactions of unexplored compounds not
already fetched and not known to exceed the carbon limit. -/
def collectRxnIds (st : ExpandState) (unextended : List String) : List String :=
  unextended.foldl (collectRxnFromComp st) []

/-- The per-compound-id filter of the download-candidate collection:
compounds already stored, cached, or excluded are not downloaded again. -/
def collectCompStep (st : ExpandState) (acc : List String) (cid : String) :
    List String :=
  if (alookup st.comp_dict cid).isSome ∨ (alookup st.comp_cache cid).isSome ∨
      cid ∈ st.comp_exceeding_C_limit
  then acc else setInsert acc cid

/-- Per-reaction step of the compound-candidate collection: union in the
participant ids of one newly fetched reaction. -/
def collectCompFromRxn (st : ExpandState) (acc : List String)
    (orxn : Option Record) : List String :=
  match orxn with
  | none => acc
  | some rxn => (ExtractReactionCompIds rxn).foldl (collectCompStep st) acc

/-- Candidate compound ids of a step: participants of the newly fetched
reactions not already stored, cached, or excluded. -/
def collectCompIds (st : ExpandState) (new_rxns : List (Option Record)) :
    List String :=
  new_rxns.foldl (collectCompFromRxn st) []

/-- Extend the compound cache with the newly fetched compounds (skipping
`None` results and records without an `_id`). -/
def updateCache (cache : List (String × Record)) :
    List (Option Record) → List (String × Record)
  | [] => cache
  | none :: rest => updateCache cache rest
  | some comp :: rest =>
    match comp._id with
    | none => updateCache cache rest
    | some comp_id => updateCache (dictInsert cache comp_id comp) rest

/-- The participant walk of one reaction: skip participants already stored
or never downloaded; `Sum.inr cid` is the `break` taken when cached
participant `cid` exceeds the carbon limit; otherwise `Sum.inl` returns the
new participants (with their cached records) to harvest. -/
def walkRxnComps (C_limit : Nat) (comp_dict comp_cache : List (String × Record)) :
    List String → List (String × Record) →
    List (String × Record) ⊕ String
  | [], acc => Sum.inl acc
  | cid :: rest, acc =>
    if (alookup comp_dict cid).isSome then
      walkRxnComps C_limit comp_dict comp_cache rest acc
    else
      match alookup comp_cache cid with
      | none => walkRxnComps C_limit comp_dict comp_cache rest acc
      | some comp =>
        if LimitCarbon comp C_limit then Sum.inr cid
        else
          walkRxnComps C_limit comp_dict comp_cache rest
            (if (alookup acc cid).isSome then acc else acc ++ [(cid, comp)])

/-- Harvest the new participants of an admitted reaction into `comp_dict`;
the `Bool` result is the mid-step `return` taken when the compound count
reaches `comp_limit`. -/
def harvestComps (comp_limit : Nat) :
    List (String × Record) → ExpandState → ExpandState × Bool
  | [], st => (st, false)
  | (cid, comp) :: rest, st =>
    let st' := { st with comp_dict := dictInsert st.comp_dict cid comp,
                         comps := st.comps + 1 }
    if st'.comps ≥ comp_limit then (st', true)
    else harvestComps comp_limit rest st'

/-- Process one newly fetched reaction: walk its participants, mark the
compound and the reaction on a carbon-limit break, otherwise admit the
reaction and harvest its new participants. -/
def processRxn (C_limit comp_limit : Nat) (st : ExpandState) (rxn : Record) :
    ExpandState × Bool :=
  match rxn._id with
  | none => (st, false)
  | some rxn_id =>
    match walkRxnComps C_limit st.comp_dict st.comp_cache
        (ExtractReactionCompIds rxn) [] with
    | Sum.inr cid =>
      ({ st with
          comp_exceeding_C_limit := setInsert st.comp_exceeding_C_limit cid,
          rxn_exceeding_C_limit := setInsert st.rxn_exceeding_C_limit rxn_id },
       false)
    | Sum.inl new_rxn_comp_ids =>
      if rxn_id ∈ st.rxn_exceeding_C_limit then (st, false)
      else
        harvestComps comp_limit new_rxn_comp_ids
          { st with rxn_dict := dictInsert st.rxn_dict rxn_id rxn }

/-- Process the whole reaction batch of a step, propagating the mid-step
return. -/
def processRxns (C_limit comp_limit : Nat) :
    List (Option Record) → ExpandState → ExpandState × Bool
  | [], st => (st, false)
  | none :: rest, st => processRxns C_limit comp_limit rest st
  | some rxn :: rest, st =>
    let r := processRxn C_limit comp_limit st rxn
    if r.2 then r else processRxns C_limit comp_limit rest r.1

/-- One step of the expansion loop. -/
def expandStep (con : MineDB) (C_limit comp_limit : Nat) (st : ExpandState) :
    ExpandState × Bool :=
  let unextended_comp_ids :=
    (dictKeys st.comp_dict).filter (fun k => !(decide (k ∈ st.extended_comp_ids)))
  let new_rxns := ThreadedGetRxns con (collectRxnIds st unextended_comp_ids)
  let new_comps := ThreadedGetComps con (collectCompIds st new_rxns)
  let st1 := { st with comp_cache := updateCache st.comp_cache new_comps }
  let r := processRxns C_limit comp_limit new_rxns st1
  if r.2 then r
  else ({ r.1 with extended_comp_ids := r.1.extended_comp_ids ++ unextended_comp_ids },
        false)

/-- The `while steps < step_limit` loop (the counter is the number of steps
still allowed; a mid-step compound-limit return ends the run early). -/
def expandLoop (con : MineDB) (C_limit comp_limit : Nat) :
    Nat → ExpandState → ExpandState
  | 0, st => st
  | steps + 1, st =>
    let r := expandStep con C_limit comp_limit st
    if r.2 then r.1 else expandLoop con C_limit comp_limit steps r.1

/-- The seed phase of `GetRawNetwork`. -/
def seedResult (con : MineDB) (comp_id_list : List String) (C_limit : Nat) :
    List (String × Record) × Nat :=
  addSeedComps C_limit (ThreadedGetComps con comp_id_list) ([], 0)

/-- The state of a whole `GetRawNetwork` run at the point of return. -/
def GetRawNetworkState (con : MineDB) (comp_id_list : List String)
    (step_limit comp_limit C_limit : Nat) : ExpandState :=
  expandLoop con C_limit comp_limit step_limit
    { comp_dict := (seedResult con comp_id_list C_limit).1,
      rxn_dict := [],
      comps := (seedResult con comp_id_list C_limit).2,
      extended_comp_ids := [],
      rxn_exceeding_C_limit := [],
      comp_exceeding_C_limit := [],
      comp_cache := [] }

/-- `GetRawNetwork(comp_id_list, step_limit, comp_limit, C_limit)` returns
`(comp_dict, rxn_dict)`. -/
def GetRawNetwork (con : MineDB) (comp_id_list : List String)
    (step_limit comp_limit C_limit : Nat) :
    List (String × Record) × List (String × Record) :=
  let st := GetRawNetworkState con comp_id_list step_limit comp_limit C_limit
  (st.comp_dict, st.rxn_dict)

/-! ## `ExpandStartCompIds` and `ConstructNetwork` -/

/-- One iteration of the first loop of `ExpandStartCompIds`: union the KEGG
ids of a start compound into the accumulator. -/
def gatherKeggIds (comp_dict : List (String × Record)) (acc : List String)
    (start_comp_id : String) : List String :=
  match alookup comp_dict start_comp_id with
  | none => acc
  | some start_comp =>
    match start_comp.DB_links_KEGG with
    | none => acc
    | some kegg_ids => kegg_ids.foldl setInsert acc

/-- One iteration of the second loop of `ExpandStartCompIds`: add the
compound to the start set when it shares a KEGG id with it. -/
def markStartComp (comp_dict : List (String × Record))
    (start_kegg_ids : List String) (acc : List String) (comp_id : String) :
    List String :=
  match alookup comp_dict comp_id with
  | none => acc
  | some comp =>
    match comp.DB_links_KEGG with
    | none => acc
    | some kegg_ids =>
      if kegg_ids.any (fun k => decide (k ∈ start_kegg_ids)) then
        setInsert acc comp_id
      else acc

/-- `ExpandStartCompIds(comp_dict, start_comp_ids, extra_kegg_ids)`: gather
the KEGG ids of the start compounds (plus the extra ids), then add every
compound sharing one of those KEGG ids to the start set. -/
def ExpandStartCompIds (comp_dict : List (String × Record))
    (start_comp_ids : List String) (extra_kegg_ids : List String) :
    List String :=
  let start_kegg_ids :=
    start_comp_ids.foldl (gatherKeggIds comp_dict) extra_kegg_ids
  (dictKeys comp_dict).foldl (markStartComp comp_dict start_kegg_ids)
    start_comp_ids

/-- Insertion into a sorted list of strings (`sorted()` is lexicographic). -/
def insertSorted (x : String) : List String → List String
  | [] => [x]
  | y :: ys => if x ≤ y then x :: y :: ys else y :: insertSorted x ys

/-- Python `sorted` on strings. -/
def sortStrings (l : List String) : List String := l.foldr insertSorted []

/-- `{**comp_dict, **rxn_dict}` (the reaction dictionary wins on clashes). -/
def mergeDicts (d1 d2 : List (String × Record)) : List (String × Record) :=
  d2.foldl (fun acc p => dictInsert acc p.1 p.2) d1

/-- The compound loop of `ConstructNetwork`. -/
def addCompounds (comp_dict : List (String × Record)) (start_ids : List String) :
    List String → Graph → Option Graph
  | [], g => some g
  | cid :: rest, g =>
    match alookup comp_dict cid with
    | none => addCompounds comp_dict start_ids rest g
    | some comp =>
      match AddCompoundNode g comp start_ids with
      | none => none
      | some g' => addCompounds comp_dict start_ids rest g'

/-- The reaction loop of `ConstructNetwork`. -/
def addReactions (rxn_dict : List (String × Record)) :
    List String → Graph → Option Graph
  | [], g => some g
  | rid :: rest, g =>
    match alookup rxn_dict rid with
    | none => addReactions rxn_dict rest g
    | some rxn =>
      match AddQuadReactionNode g rxn with
      | none => none
      | some g' => addReactions rxn_dict rest g'

/-- `ConstructNetwork(comp_dict, rxn_dict, start_comp_ids, extra_kegg_ids)`:
expand the start set, then add every compound node and every quad reaction
node in sorted-id order over a fresh graph carrying `mine_data`. -/
def ConstructNetwork (comp_dict rxn_dict : List (String × Record))
    (start_comp_ids : List String) (extra_kegg_ids : List String) :
    Option Graph :=
  let start_ids := ExpandStartCompIds comp_dict (listToSet start_comp_ids)
    extra_kegg_ids
  let g0 : Graph := { mine_data := mergeDicts comp_dict rxn_dict }
  match addCompounds comp_dict start_ids (sortStrings (dictKeys comp_dict)) g0 with
  | none => none
  | some g1 => addReactions rxn_dict (sortStrings (dictKeys rxn_dict)) g1

/-! ## `AllowReactionListing` and `SortKeggReactions` -/

/-- `startsWithChars n h`: `n` is an initial segment of `h`. -/
def startsWithChars : List Char → List Char → Bool
  | [], _ => true
  | _ :: _, [] => false
  | a :: as, b :: bs => a == b && startsWithChars as bs

/-- `containsChars n h`: `n` occurs contiguously inside `h`. -/
def containsChars (needle : List Char) : List Char → Bool
  | [] => startsWithChars needle []
  | b :: bs => startsWithChars needle (b :: bs) || containsChars needle bs

/-- Python's substring test `needle in hay`. -/
def pyInStr (needle hay : String) : Bool := containsChars needle.data hay.data

/-- `AllowReactionListing(kegg_comp, kegg_rxn)`: disallow inorganic
compounds, CO2, CoA, ACP, and compounds occurring in a cofactor `RPair` or
in pair `RP00003`; reading a missing `_id` raises (`none`). -/
def AllowReactionListing (kegg_comp kegg_rxn : Record) : Option Bool :=
  match kegg_comp._id with
  | none => none
  | some comp_id =>
    if !(LimitCarbon kegg_comp 0) || comp_id == "C00011" then some false
    else if comp_id == "C00010" || comp_id == "C00229" then some false
    else
      match kegg_rxn.RPair with
      | none => some true
      | some rpairs =>
        if rpairs.any (fun rp =>
            (pyInStr comp_id rp.2.1 && rp.2.2 == "cofac") ||
            (pyInStr comp_id rp.2.1 && rp.1 == "RP00003"))
        then some false else some true

/-- The body of `SortKeggReactions` for one compound and one listed
reaction id: append the reaction to `Reactant_in`/`Product_of` of the
compound's entry when the listing is allowed and the compound occurs on the
corresponding side. -/
def sortOneRxn (kegg_rxn_dict : List (String × Record)) (kegg_comp_id : String)
    (d : List (String × Record)) (rxn_id : String) :
    Option (List (String × Record)) :=
  match alookup kegg_rxn_dict rxn_id with
  | none => some d
  | some rxn =>
    match alookup d kegg_comp_id with
    | none => some d
    | some kegg_comp =>
      match AllowReactionListing kegg_comp rxn with
      | none => none
      | some false => some d
      | some true =>
        match rxn._id with
        | none =>
          if (rxn.Reactants.getD []).map Prod.snd |>.contains kegg_comp_id then
            none
          else if (rxn.Products.getD []).map Prod.snd |>.contains kegg_comp_id then
            none
          else some d
        | some rid =>
          let d1 :=
            match rxn.Reactants with
            | none => d
            | some rs =>
              if (rs.map Prod.snd).contains kegg_comp_id then
                match alookup d kegg_comp_id with
                | none => d
                | some comp =>
                  dictInsert d kegg_comp_id
                    { comp with Reactant_in := some (comp.Reactant_in.getD [] ++ [rid]) }
              else d
          match rxn.Products with
          | none => some d1
          | some ps =>
            if (ps.map Prod.snd).contains kegg_comp_id then
              match alookup d1 kegg_comp_id with
              | none => some d1
              | some comp =>
                some (dictInsert d1 kegg_comp_id
                  { comp with Product_of := some (comp.Product_of.getD [] ++ [rid]) })
            else some d1

/-- `SortKeggReactions(kegg_comp_dict, kegg_rxn_dict)`: for every compound
(in dictionary order) walk its `Reactions` list, mutating the compound
dictionary in place.  Reading `rxn['_id']` of an id-less reaction at append
time raises (`none`). -/
def SortKeggReactions (kegg_comp_dict kegg_rxn_dict : List (String × Record)) :
    Option (List (String × Record)) :=
  (dictKeys kegg_comp_dict).foldlM (fun d kegg_comp_id =>
    match alookup d kegg_comp_id with
    | none => some d
    | some kegg_comp =>
      match kegg_comp.Reactions with
      | none => some d
      | some rxn_ids =>
        rxn_ids.foldlM (fun d rxn_id => sortOneRxn kegg_rxn_dict kegg_comp_id d rxn_id) d)
    kegg_comp_dict

/-! ## `KeggMineIntegration`

The integration pass builds the KEGG-to-MINE index, then walks the nodes.
For every compound node it evaluates `re.match('^C{1}[0-9]{5}$', compound)`
where `compound` is a name that is never assigned in the function, raising
`NameError`; for every other node it divides by the KEGG-node count in the
progress report, raising `ZeroDivisionError` when that count is zero.  Both
uncaught exceptions are modelled as `none`. -/

/-- A character of the MINE-id regex class `[0-9,a-f]`. -/
def isMineIdChar (ch : Char) : Bool :=
  ch.isDigit || ch == ',' || ('a' ≤ ch && ch ≤ 'f')

/-- `re.match('^[CX]{1}[0-9,a-f]{40}$', mine_id)`. -/
def matchMineId (s : String) : Bool :=
  match s.data with
  | [] => false
  | ch :: rest => (ch == 'C' || ch == 'X') && rest.length == 40 && rest.all isMineIdChar

/-- Phase 1 of `KeggMineIntegration`: the KEGG-id → MINE-node-id index,
built from the `DB_links` of every MINE-shaped compound node. -/
def buildKeggToMine (network : Graph) : List (String × List String) :=
  network.nodes.foldl (fun acc p =>
    if p.2.type == "c" && matchMineId p.2.mid then
      match alookup network.mine_data p.2.mid with
      | none => acc
      | some r =>
        match r.DB_links_KEGG with
        | none => acc
        | some kegg_ids =>
          kegg_ids.foldl (fun acc kid =>
            match alookup acc kid with
            | none => dictInsert acc kid [p.2.mid]
            | some ms => dictInsert acc kid (setInsert ms p.2.mid)) acc
    else acc) []

/-- Phase 2 of `KeggMineIntegration`: the transplantation loop.  A compound
node evaluates the unassigned name `compound` (`NameError`); any other node
reaches the progress report, which divides by `kc_node_count`
(`ZeroDivisionError` when it is zero). -/
def integrationVisit (kc_node_count : Nat) : List (Nat × Node) → Option Unit
  | [] => some ()
  | (_, nd) :: rest =>
    if nd.type == "c" then none
    else if kc_node_count == 0 then none
    else integrationVisit kc_node_count rest

/-- `KeggMineIntegration(network)`. -/
def KeggMineIntegration (network : Graph) : Option Graph :=
  let kegg_to_mine := buildKeggToMine network
  let c_node_count := (network.nodes.filter (fun p => p.2.type == "c")).length
  let mc_node_count :=
    (network.nodes.filter (fun p => p.2.type == "c" && matchMineId p.2.mid)).length
  let kc_node_count := c_node_count - mc_node_count
  match kegg_to_mine with
  | _ => (integrationVisit kc_node_count network.nodes).map (fun _ => network)

/-! ## Basic lemmas about the dictionary and set primitives -/

theorem alookup_replaceKey_self {κ α : Type} [DecidableEq κ] {k : κ} {v : α} :
    ∀ d : List (κ × α), (alookup d k).isSome →
      alookup (replaceKey d k v) k = some v := by
  intro d h
  induction d with
  | nil => simp [alookup] at h
  | cons hd tl ih =>
    obtain ⟨k1, v1⟩ := hd
    by_cases hk : k1 = k
    · simp [replaceKey, if_pos hk, alookup]
    · simp only [alookup, if_neg hk] at h
      simp only [replaceKey, if_neg hk, alookup]
      exact ih h

theorem alookup_replaceKey_ne {κ α : Type} [DecidableEq κ] {k k' : κ} {v : α}
    (hne : k' ≠ k) :
    ∀ d : List (κ × α), alookup (replaceKey d k v) k' = alookup d k' := by
  intro d
  induction d with
  | nil => simp [replaceKey]
  | cons hd tl ih =>
    obtain ⟨k1, v1⟩ := hd
    by_cases hk : k1 = k
    · subst hk
      have hkk' : ¬ (k1 = k') := fun h => hne (Eq.symm h)
      simp only [replaceKey, if_pos rfl, alookup]
      rw [if_neg hkk', if_neg hkk']
      exact ih
    · simp only [replaceKey, if_neg hk, alookup]
      by_cases hk' : k1 = k'
      · rw [if_pos hk', if_pos hk']
      · rw [if_neg hk', if_neg hk']
        exact ih

theorem alookup_append_of_none {κ α : Type} [DecidableEq κ] {k : κ}
    {d1 d2 : List (κ × α)} (h : alookup d1 k = none) :
    alookup (d1 ++ d2) k = alookup d2 k := by
  induction d1 with
  | nil => simp
  | cons hd tl ih =>
    obtain ⟨k1, v1⟩ := hd
    by_cases hk : k1 = k
    · simp [alookup, hk] at h
    · simp only [alookup, if_neg hk] at h
      simpa [alookup, if_neg hk] using ih h

theorem isSome_false_eq_none {α : Type} {o : Option α}
    (h : ¬ (o.isSome = true)) : o = none := by
  cases o with
  | none => rfl
  | some v => simp at h

theorem alookup_dictInsert_self {κ α : Type} [DecidableEq κ]
    (d : List (κ × α)) (k : κ) (v : α) :
    alookup (dictInsert d k v) k = some v := by
  unfold dictInsert
  by_cases h : (alookup d k).isSome
  · rw [if_pos h]
    exact alookup_replaceKey_self d h
  · rw [if_neg h, alookup_append_of_none (isSome_false_eq_none h)]
    simp [alookup]

theorem alookup_append_single_ne {κ α : Type} [DecidableEq κ]
    {k k' : κ} (v : α) (hne : k' ≠ k) :
    ∀ d : List (κ × α), alookup (d ++ [(k, v)]) k' = alookup d k' := by
  intro d
  induction d with
  | nil => simp [alookup, if_neg (fun h => hne (Eq.symm h))]
  | cons hd tl ih =>
    obtain ⟨k1, v1⟩ := hd
    by_cases hk : k1 = k'
    · simp [alookup, hk]
    · simp only [List.cons_append, alookup, if_neg hk]
      exact ih

theorem alookup_dictInsert_ne {κ α : Type} [DecidableEq κ]
    {k k' : κ} (d : List (κ × α)) (v : α) (hne : k' ≠ k) :
    alookup (dictInsert d k v) k' = alookup d k' := by
  unfold dictInsert
  by_cases h : (alookup d k).isSome
  · rw [if_pos h]
    exact alookup_replaceKey_ne hne d
  · rw [if_neg h]
    exact alookup_append_single_ne v hne d

theorem replaceKey_length {κ α : Type} [DecidableEq κ] (k : κ) (v : α) :
    ∀ d : List (κ × α), (replaceKey d k v).length = d.length := by
  intro d
  induction d with
  | nil => rfl
  | cons hd tl ih =>
    obtain ⟨k1, v1⟩ := hd
    by_cases hk : k1 = k
    · simp [replaceKey, if_pos hk, ih]
    · simp [replaceKey, if_neg hk, ih]

theorem dictInsert_length_le {κ α : Type} [DecidableEq κ]
    (d : List (κ × α)) (k : κ) (v : α) :
    (dictInsert d k v).length ≤ d.length + 1 := by
  unfold dictInsert
  by_cases h : (alookup d k).isSome
  · rw [if_pos h, replaceKey_length]; simp
  · rw [if_neg h]; simp

theorem dictInsert_length_of_none {κ α : Type} [DecidableEq κ]
    {d : List (κ × α)} {k : κ} (v : α) (h : alookup d k = none) :
    (dictInsert d k v).length = d.length + 1 := by
  unfold dictInsert
  rw [if_neg (by simp [h])]
  simp

theorem alookup_isSome_dictInsert {κ α : Type} [DecidableEq κ]
    {d : List (κ × α)} {k' : κ} (k : κ) (v : α)
    (h : (alookup d k').isSome) :
    (alookup (dictInsert d k v) k').isSome := by
  by_cases he : k' = k
  · subst he; simp [alookup_dictInsert_self]
  · rw [alookup_dictInsert_ne d v he]; exact h

theorem alookup_mem {κ α : Type} [DecidableEq κ]
    {d : List (κ × α)} {k : κ} {v : α} (h : alookup d k = some v) : (k, v) ∈ d := by
  induction d with
  | nil => simp [alookup] at h
  | cons hd tl ih =>
    obtain ⟨k1, v1⟩ := hd
    by_cases hk : k1 = k
    · subst hk
      simp only [alookup, if_pos trivial, eq_self_iff_true, if_true,
        Option.some.injEq] at h
      subst h
      exact List.mem_cons_self _ _
    · simp only [alookup, if_neg hk] at h
      exact List.mem_cons_of_mem _ (ih h)

theorem alookup_eq_none {κ α : Type} [DecidableEq κ]
    {d : List (κ × α)} {k : κ} (h : ∀ p ∈ d, p.1 ≠ k) :
    alookup d k = none := by
  induction d with
  | nil => rfl
  | cons hd tl ih =>
    have h1 : hd.1 ≠ k := h hd (List.mem_cons_self hd tl)
    simp only [alookup, if_neg h1]
    exact ih (fun p hp => h p (List.mem_cons_of_mem _ hp))

theorem mem_setInsert {κ : Type} [DecidableEq κ] {s : List κ} {x y : κ} :
    x ∈ setInsert s y ↔ x = y ∨ x ∈ s := by
  unfold setInsert
  by_cases h : y ∈ s
  · simp only [if_pos h]
    constructor
    · exact Or.inr
    · rintro (rfl | hx)
      · exact h
      · exact hx
  · simp [if_neg h, or_comm]

theorem mem_setInsert_self {κ : Type} [DecidableEq κ] (s : List κ) (y : κ) :
    y ∈ setInsert s y := mem_setInsert.mpr (Or.inl rfl)

theorem mem_setInsert_of_mem {κ : Type} [DecidableEq κ] {s : List κ} {x : κ}
    (y : κ) (h : x ∈ s) : x ∈ setInsert s y := mem_setInsert.mpr (Or.inr h)

/-! ## Claim C9: cofactor-pair suppression in `SortKeggReactions` -/

/-- The C9 fixture compound: C1, a 10-carbon compound listing R1 and R2. -/
def fixtureCompDictC9 : List (String × Record) :=
  [("C1", { _id := some "C1", Reactions := some ["R1", "R2"],
            Formula := some "C10H18O2" })]

/-- The C9 fixture reactions: C1 is a reactant of both; the `RPair` of R2
tags the pair containing C1 as `cofac`. -/
def fixtureRxnDictC9 : List (String × Record) :=
  [("R1", { _id := some "R1", Reactants := some [(1, "C1")],
            Products := some [(1, "X1")],
            RPair := some [("RP1", ("C1_X1", "main"))] }),
   ("R2", { _id := some "R2", Reactants := some [(1, "C1"), (1, "C100")],
            Products := some [(1, "C101"), (2, "C10")],
            RPair := some [("RP2", ("C100_C101", "main")),
                           ("RP3", ("C1_C10", "cofac"))] })]

/-- C9: on the fixture where compound C1 lists reactions R1 and R2, is a
reactant of both, and occurs in an `RPair` of R2 tagged `cofac`,
`SortKeggReactions` leaves C1 with `Reactant_in == ["R1"]` exactly and adds
no `Product_of` entry: the cofactor pairing suppresses the R2 listing. -/
theorem sortKeggReactions_cofac_scenario :
    (SortKeggReactions fixtureCompDictC9 fixtureRxnDictC9).map
      (fun d => (alookup d "C1").map (fun c => (c.Reactant_in, c.Product_of))) =
    some (some (some ["R1"], none)) := by
  rfl

/-! ## Claim C3: `KeggMineIntegration` raises on any compound node -/

/-- A minimal graph holding a single KEGG-shaped compound node (node 1 of
the repository's own `test_KeggMineIntegration` fixture). -/
def fixtureGraphC3 : Graph :=
  { nodes := [(1, { type := "c", mid := "C00001", start := some true })] }

/-- C3 (code bug): the integration pass never completes on a graph holding
a compound node — the secondary-namespace shape test
`re.match('^C{1}[0-9]{5}$', compound)` reads the never-assigned name
`compound` and raises `NameError` before any node can be matched or
removed, contradicting the claim that the pass completes without raising
and removes exactly the matched KEGG nodes. -/
theorem keggMineIntegration_raises :
    KeggMineIntegration fixtureGraphC3 = none := by
  rfl

/-! ## Claim C10: `ExpandStartCompIds` only ever adds ids -/

theorem markStartComp_cases (comp_dict : List (String × Record))
    (skegg acc : List String) (k : String) :
    markStartComp comp_dict skegg acc k = acc ∨
    markStartComp comp_dict skegg acc k = setInsert acc k := by
  unfold markStartComp
  split
  · exact Or.inl rfl
  · split
    · exact Or.inl rfl
    · split
      · exact Or.inr rfl
      · exact Or.inl rfl

theorem foldl_setInsert_mem {f : List String → String → List String}
    (hf : ∀ acc k, f acc k = acc ∨ f acc k = setInsert acc k) :
    ∀ (ks acc : List String) (x : String),
      (x ∈ acc → x ∈ ks.foldl f acc) ∧
      (x ∈ ks.foldl f acc → x ∈ acc ∨ x ∈ ks) := by
  intro ks
  induction ks with
  | nil => intro acc x; exact ⟨fun h => h, fun h => Or.inl h⟩
  | cons k ks ih =>
    intro acc x
    constructor
    · intro hx
      simp only [List.foldl_cons]
      refine (ih (f acc k) x).1 ?_
      rcases hf acc k with h | h
      · rw [h]; exact hx
      · rw [h]; exact mem_setInsert_of_mem k hx
    · intro hx
      simp only [List.foldl_cons] at hx
      rcases (ih (f acc k) x).2 hx with h | h
      · rcases hf acc k with he | he
        · rw [he] at h; exact Or.inl h
        · rw [he] at h
          rcases mem_setInsert.mp h with rfl | h
          · exact Or.inr (List.mem_cons_self _ _)
          · exact Or.inl h
      · exact Or.inr (List.mem_cons_of_mem _ h)

/-- C10: the set returned by `ExpandStartCompIds` contains every input
start id (nothing is ever removed), and every id it adds beyond the input
is a key of the compound dictionary. -/
theorem expandStartCompIds_superset
    (comp_dict : List (String × Record)) (start_comp_ids extra_kegg_ids : List String)
    (x : String) :
    (x ∈ start_comp_ids →
      x ∈ ExpandStartCompIds comp_dict start_comp_ids extra_kegg_ids) ∧
    (x ∈ ExpandStartCompIds comp_dict start_comp_ids extra_kegg_ids →
      x ∈ start_comp_ids ∨ x ∈ dictKeys comp_dict) := by
  unfold ExpandStartCompIds
  exact foldl_setInsert_mem
    (markStartComp_cases comp_dict
      (start_comp_ids.foldl (gatherKeggIds comp_dict) extra_kegg_ids))
    (dictKeys comp_dict) start_comp_ids x

/-- Fixture for the C10 witness: one compound sharing the extra KEGG id. -/
def fixtureCompDictC10 : List (String × Record) :=
  [("C1", { _id := some "C1", DB_links_KEGG := some ["K1"] })]

/-- Witness for C10 at a concrete input: the start id survives, and the
added id is a key of the dictionary. -/
theorem expandStartCompIds_superset_witness :
    "S" ∈ ExpandStartCompIds fixtureCompDictC10 ["S"] ["K1"] ∧
    ("C1" ∈ (["S"] : List String) ∨ "C1" ∈ dictKeys fixtureCompDictC10) := by
  constructor
  · exact (expandStartCompIds_superset fixtureCompDictC10 ["S"] ["K1"] "S").1
      (by decide)
  · exact (expandStartCompIds_superset fixtureCompDictC10 ["S"] ["K1"] "C1").2
      (by decide)

/-! ## Carbon-count lemmas (`LimitCarbon` against the specification) -/

theorem carbonCount_mk_eq_spec :
    ∀ l : List Char, carbonCountOfFormula (String.mk l) = specCarbonCount l := by
  intro l
  induction l with
  | nil => rfl
  | cons ch rest ih =>
    have hgoal : carbonCountOfFormula (String.mk (ch :: rest)) =
        match (ch :: rest).dropWhile (fun c => c != 'C') with
        | [] => 0
        | _ :: r =>
          match parseNatDigits (r.takeWhile Char.isDigit) with
          | none => 1
          | some n => n := rfl
    rw [hgoal, List.dropWhile_cons]
    by_cases h : ch = 'C'
    · subst h
      simp [specCarbonCount]
    · have hb : (ch != 'C') = true := by simpa [bne_iff_ne] using h
      rw [if_pos hb]
      have hspec : specCarbonCount (ch :: rest) = specCarbonCount rest := by
        simp [specCarbonCount, h]
      rw [hspec]
      exact ih

theorem carbonCount_eq_spec (f : String) :
    carbonCountOfFormula f = specCarbonCount f.data := by
  cases f with
  | mk l => exact carbonCount_mk_eq_spec l

theorem limitCarbon_eq_spec (comp : Record) (lim : Nat) :
    LimitCarbon comp lim =
      match comp.Formula with
      | none => false
      | some f => decide (specCarbonCount f.data > lim) := by
  unfold LimitCarbon
  cases comp.Formula with
  | none => rfl
  | some f => simp [carbonCount_eq_spec]

/-- A compound with zero carbons in the specification's sense (a missing
formula also passes every carbon limit in the source). -/
def ZeroCarbonCompound (comp : Record) : Prop :=
  ∀ f, comp.Formula = some f → specCarbonCount f.data = 0

theorem limitCarbon_zero_iff (comp : Record) :
    LimitCarbon comp 0 = false ↔ ZeroCarbonCompound comp := by
  rw [limitCarbon_eq_spec]
  unfold ZeroCarbonCompound
  cases hf : comp.Formula with
  | none =>
    constructor
    · intro _ f h; exact absurd h (by simp)
    · intro _; rfl
  | some f =>
    constructor
    · intro h f' hf'
      have hff : f = f' := by injection hf'
      subst hff
      have h2 : ¬ specCarbonCount f.data > 0 := by simpa using h
      omega
    · intro h
      have h2 := h f rfl
      simp [h2]

/-! ## Claim C7: `LimitCarbon` against the spec, and over-limit seeds -/

/-- The expansion state with nothing stored (the state after a seed phase
that admitted nothing). -/
def emptyExpandState (c0 : Nat) : ExpandState :=
  { comp_dict := [], rxn_dict := [], comps := c0, extended_comp_ids := [],
    rxn_exceeding_C_limit := [], comp_exceeding_C_limit := [], comp_cache := [] }

theorem expandStep_empty (con : MineDB) (C_limit comp_limit c0 : Nat) :
    expandStep con C_limit comp_limit (emptyExpandState c0) =
      (emptyExpandState c0, false) := rfl

theorem expandLoop_empty (con : MineDB) (C_limit comp_limit c0 : Nat) :
    ∀ n, expandLoop con C_limit comp_limit n (emptyExpandState c0) =
      emptyExpandState c0 := by
  intro n
  induction n with
  | zero => rfl
  | succ n ih =>
    show (let r := expandStep con C_limit comp_limit (emptyExpandState c0)
          if r.2 then r.1 else expandLoop con C_limit comp_limit n r.1) =
      emptyExpandState c0
    rw [expandStep_empty]
    exact ih

/-- C7: (a) for a compound with a formula, `LimitCarbon` is `True` exactly
when the carbon count — the integer following the first `C`, `0` on no
match, `1` on an unparsable digit run — exceeds the limit; (b) an over-limit
seed is excluded without raising, so a single over-limit seed yields
`({}, {})`. -/
theorem limitCarbon_spec_and_seed_exclusion :
    (∀ (comp : Record) (f : String) (lim : Nat), comp.Formula = some f →
      (LimitCarbon comp lim = true ↔ specCarbonCount f.data > lim)) ∧
    (∀ (con : MineDB) (seed : String) (c : Record) (sl cl Cl : Nat),
      con.getComp seed = some c → LimitCarbon c Cl = true →
      GetRawNetwork con [seed] sl cl Cl = ([], [])) := by
  constructor
  · intro comp f lim hf
    rw [limitCarbon_eq_spec, hf]
    simp
  · intro con seed c sl cl Cl hget hlim
    have hseed : seedResult con [seed] Cl = ([], 0) := by
      unfold seedResult ThreadedGetComps
      rw [List.map_cons, List.map_nil, hget]
      have h1 : addSeedComps Cl [some c] ([], 0) =
          (match c._id with
           | none => addSeedComps Cl [] ([], 0)
           | some comp_id =>
             if LimitCarbon c Cl then addSeedComps Cl [] ([], 0)
             else addSeedComps Cl [] (dictInsert [] comp_id c, 0 + 1)) := rfl
      rw [h1]
      cases c._id with
      | none => rfl
      | some comp_id =>
        show (if LimitCarbon c Cl = true then addSeedComps Cl [] ([], 0)
              else addSeedComps Cl [] (dictInsert [] comp_id c, 0 + 1)) = ([], 0)
        rw [if_pos hlim]
        rfl
    have hstate : GetRawNetworkState con [seed] sl cl Cl = emptyExpandState 0 := by
      unfold GetRawNetworkState
      rw [hseed]
      exact expandLoop_empty con Cl cl 0 sl
    unfold GetRawNetwork
    rw [hstate]
    rfl

/-- Fixture for the C7 witness: a 26-carbon compound. -/
def hugeCompC7 : Record := { _id := some "H1", Formula := some "C26H52O2" }

/-- Fixture database for the C7 witness. -/
def dbHugeC7 : MineDB :=
  { getComp := fun s => if s = "H1" then some hugeCompC7 else none,
    getRxn := fun _ => none }

/-- Witness for C7 at a concrete input. -/
theorem limitCarbon_spec_and_seed_exclusion_witness :
    (LimitCarbon hugeCompC7 25 = true ↔ specCarbonCount "C26H52O2".data > 25) ∧
    GetRawNetwork dbHugeC7 ["H1"] 3 10 25 = ([], []) :=
  ⟨limitCarbon_spec_and_seed_exclusion.1 hugeCompC7 "C26H52O2" 25 rfl,
   limitCarbon_spec_and_seed_exclusion.2 dbHugeC7 "H1" hugeCompC7 3 10 25 rfl
     (by decide)⟩

/-! ## Claim C8: the `start` flag of a created compound node -/

/-- C8: the node `AddCompoundNode` creates is marked `start = true` iff the
compound's id is in the expanded start set, or the id with its first
character replaced by `C` is in the start set, or the id begins with `X`
and the compound has zero carbons. -/
theorem addCompoundNode_eq_of_id (graph : Graph) (compound : Record)
    (s : List String) (mid : String) (flag : Bool)
    (hid : compound._id = some mid)
    (hflag : compoundStartFlag compound mid s = some flag) :
    AddCompoundNode graph compound s =
      some { nodes := dictInsert graph.nodes (graph.nodes.length + 1)
               { type := "c", mid := mid, start := some flag, c := none },
             edges := graph.edges,
             cmid2node := dictInsert graph.cmid2node mid (graph.nodes.length + 1),
             mine_data := graph.mine_data } := by
  unfold AddCompoundNode
  rw [hid]
  show (match compoundStartFlag compound mid s with
        | none => (none : Option Graph)
        | some start =>
          some { nodes := dictInsert graph.nodes (graph.nodes.length + 1)
                   { type := "c", mid := mid, start := some start, c := none },
                 edges := graph.edges,
                 cmid2node := dictInsert graph.cmid2node mid (graph.nodes.length + 1),
                 mine_data := graph.mine_data }) = _
  rw [hflag]

theorem addCompoundNode_none_of_flag_none (graph : Graph) (compound : Record)
    (s : List String) (mid : String)
    (hid : compound._id = some mid)
    (hflag : compoundStartFlag compound mid s = none) :
    AddCompoundNode graph compound s = none := by
  unfold AddCompoundNode
  rw [hid]
  show (match compoundStartFlag compound mid s with
        | none => (none : Option Graph)
        | some start =>
          some { nodes := dictInsert graph.nodes (graph.nodes.length + 1)
                   { type := "c", mid := mid, start := some start, c := none },
                 edges := graph.edges,
                 cmid2node := dictInsert graph.cmid2node mid (graph.nodes.length + 1),
                 mine_data := graph.mine_data }) = _
  rw [hflag]

theorem compoundStartFlag_true_iff (compound : Record) (mid : String)
    (s : List String) (flag : Bool)
    (h : compoundStartFlag compound mid s = some flag) :
    flag = true ↔ mid ∈ s ∨ ("C" ++ mid.drop 1) ∈ s ∨
      (mid.data.head? = some 'X' ∧ ZeroCarbonCompound compound) := by
  unfold compoundStartFlag at h
  by_cases h1 : mid ∈ s
  · rw [if_pos h1] at h
    injection h with h
    subst h
    simp [h1]
  · rw [if_neg h1] at h
    by_cases h2 : ("C" ++ mid.drop 1) ∈ s
    · rw [if_pos h2] at h
      injection h with h
      subst h
      simp [h2]
    · rw [if_neg h2] at h
      cases hd : mid.data with
      | nil => rw [hd] at h; exact absurd h (by simp)
      | cons ch rest =>
        rw [hd] at h
        injection h with h
        constructor
        · intro hf
          rw [hf] at h
          have hch : ch = 'X' := by
            have := ((Bool.and_eq_true _ _).mp h).1
            simpa using this
          have hlim : LimitCarbon compound 0 = false := by
            have := ((Bool.and_eq_true _ _).mp h).2
            simpa using this
          refine Or.inr (Or.inr ⟨?_, (limitCarbon_zero_iff compound).mp hlim⟩)
          rw [hch]
          rfl
        · intro hor
          rcases hor with hx | hx | ⟨hx, hz⟩
          · exact absurd hx h1
          · exact absurd hx h2
          · have hch : ch = 'X' := by
              simpa using hx
            have hlim : LimitCarbon compound 0 = false :=
              (limitCarbon_zero_iff compound).mpr hz
            rw [← h, hch, hlim]
            rfl

/-- C8: the node `AddCompoundNode` creates is marked `start = true` iff the
compound's id is in the expanded start set, or the id with its first
character replaced by `C` is in the start set, or the id begins with `X`
and the compound has zero carbons. -/
theorem addCompoundNode_start_flag (graph : Graph) (compound : Record)
    (s : List String) (g' : Graph) (mid : String) (st : Bool)
    (hadd : AddCompoundNode graph compound s = some g')
    (hid : compound._id = some mid)
    (hnode : alookup g'.nodes (graph.nodes.length + 1) =
      some { type := "c", mid := mid, start := some st, c := none }) :
    st = true ↔ mid ∈ s ∨ ("C" ++ mid.drop 1) ∈ s ∨
      (mid.data.head? = some 'X' ∧ ZeroCarbonCompound compound) := by
  cases hf : compoundStartFlag compound mid s with
  | none =>
    rw [addCompoundNode_none_of_flag_none graph compound s mid hid hf] at hadd
    exact absurd hadd (by simp)
  | some flag =>
    rw [addCompoundNode_eq_of_id graph compound s mid flag hid hf] at hadd
    injection hadd with hadd
    subst hadd
    have hnode2 : alookup (dictInsert graph.nodes (graph.nodes.length + 1)
        { type := "c", mid := mid, start := some flag, c := none })
        (graph.nodes.length + 1) =
        some { type := "c", mid := mid, start := some st, c := none } := hnode
    rw [alookup_dictInsert_self] at hnode2
    have hst : flag = st := by
      have := (Node.mk.injEq _ _ _ _ _ _ _ _).mp (Option.some.injEq _ _ |>.mp hnode2)
      have h3 := this.2.2.1
      injection h3
    rw [← hst]
    exact compoundStartFlag_true_iff compound mid s flag hf

/-- Fixture for the C8 witness: an inorganic `X` compound. -/
def inorganicCompC8 : Record := { _id := some "X1", Formula := some "C0H3P" }

/-- The graph the C8 witness produces. -/
def fixtureGraphC8 : Graph :=
  { nodes := [(1, { type := "c", mid := "X1", start := some true, c := none })],
    edges := [], cmid2node := [("X1", 1)], mine_data := [] }

/-- Witness for C8 at a concrete input: the zero-carbon `X` compound is
marked as a start compound although the start set is empty. -/
theorem addCompoundNode_start_flag_witness :
    true = true ↔ "X1" ∈ ([] : List String) ∨ ("C" ++ "X1".drop 1) ∈ ([] : List String) ∨
      ("X1".data.head? = some 'X' ∧ ZeroCarbonCompound inorganicCompC8) :=
  addCompoundNode_start_flag { nodes := [] } inorganicCompC8 [] fixtureGraphC8
    "X1" true rfl rfl rfl

/-! ## Claim C4: connection fidelity of `CheckConnection` -/

/-- C4: for an existing compound node `c` and reaction role node `r`,
`CheckConnection` never raises, and returns `True` exactly when `r`'s
reaction id occurs in the `Reactant_in` list of `c`'s record (roles
`rf`/`pr`) or in its `Product_of` list (roles `pf`/`rr`); a missing record
or missing list yields `False`. -/
theorem checkConnection_fidelity (g : Graph) (c r : Nat) (cn rn : Node)
    (hc : alookup g.nodes c = some cn) (hr : alookup g.nodes r = some rn)
    (_hcn : cn.type = "c")
    (hrole : rn.type = "rf" ∨ rn.type = "pf" ∨ rn.type = "rr" ∨ rn.type = "pr") :
    (CheckConnection g c r).isSome = true ∧
    (CheckConnection g c r = some true ↔
      ((rn.type = "rf" ∨ rn.type = "pr") ∧
        rn.mid ∈ ((alookup g.mine_data cn.mid).bind Record.Reactant_in).getD []) ∨
      ((rn.type = "pf" ∨ rn.type = "rr") ∧
        rn.mid ∈ ((alookup g.mine_data cn.mid).bind Record.Product_of).getD [])) := by
  have heq : CheckConnection g c r =
      some ((if rn.type = "rf" ∨ rn.type = "pr" then
               match alookup g.mine_data cn.mid with
               | none => false
               | some rc =>
                 match rc.Reactant_in with
                 | none => false
                 | some l => decide (rn.mid ∈ l)
             else false) ||
            (if rn.type = "pf" ∨ rn.type = "rr" then
               match alookup g.mine_data cn.mid with
               | none => false
               | some rc =>
                 match rc.Product_of with
                 | none => false
                 | some l => decide (rn.mid ∈ l)
             else false)) := by
    unfold CheckConnection
    rw [hc, hr]
  refine ⟨by rw [heq]; rfl, ?_⟩
  rw [heq]
  have hmem_r : (match alookup g.mine_data cn.mid with
      | none => false
      | some rc =>
        match rc.Reactant_in with
        | none => false
        | some l => decide (rn.mid ∈ l)) = true ↔
      rn.mid ∈ ((alookup g.mine_data cn.mid).bind Record.Reactant_in).getD [] := by
    cases hm : alookup g.mine_data cn.mid with
    | none => simp
    | some rc =>
      cases hri : rc.Reactant_in with
      | none => simp [hri]
      | some l => simp [hri]
  have hmem_p : (match alookup g.mine_data cn.mid with
      | none => false
      | some rc =>
        match rc.Product_of with
        | none => false
        | some l => decide (rn.mid ∈ l)) = true ↔
      rn.mid ∈ ((alookup g.mine_data cn.mid).bind Record.Product_of).getD [] := by
    cases hm : alookup g.mine_data cn.mid with
    | none => simp
    | some rc =>
      cases hri : rc.Product_of with
      | none => simp [hri]
      | some l => simp [hri]
  rcases hrole with h | h | h | h
  · rw [h]
    rw [if_pos (show ("rf" : String) = "rf" ∨ ("rf" : String) = "pr" from Or.inl rfl)]
    rw [if_neg (show ¬ (("rf" : String) = "pf" ∨ ("rf" : String) = "rr") by decide)]
    simp only [Bool.or_false, Option.some.injEq]
    rw [hmem_r]
    constructor
    · intro hm; exact Or.inl ⟨Or.inl trivial, hm⟩
    · rintro (⟨_, hm⟩ | ⟨hrole2, _⟩)
      · exact hm
      · exact absurd hrole2 (by decide)
  · rw [h]
    rw [if_neg (show ¬ (("pf" : String) = "rf" ∨ ("pf" : String) = "pr") by decide)]
    rw [if_pos (show ("pf" : String) = "pf" ∨ ("pf" : String) = "rr" from Or.inl rfl)]
    simp only [Bool.false_or, Option.some.injEq]
    rw [hmem_p]
    constructor
    · intro hm; exact Or.inr ⟨Or.inl trivial, hm⟩
    · rintro (⟨hrole2, _⟩ | ⟨_, hm⟩)
      · exact absurd hrole2 (by decide)
      · exact hm
  · rw [h]
    rw [if_neg (show ¬ (("rr" : String) = "rf" ∨ ("rr" : String) = "pr") by decide)]
    rw [if_pos (show ("rr" : String) = "pf" ∨ ("rr" : String) = "rr" from Or.inr rfl)]
    simp only [Bool.false_or, Option.some.injEq]
    rw [hmem_p]
    constructor
    · intro hm; exact Or.inr ⟨Or.inr trivial, hm⟩
    · rintro (⟨hrole2, _⟩ | ⟨_, hm⟩)
      · exact absurd hrole2 (by decide)
      · exact hm
  · rw [h]
    rw [if_pos (show ("pr" : String) = "rf" ∨ ("pr" : String) = "pr" from Or.inr rfl)]
    rw [if_neg (show ¬ (("pr" : String) = "pf" ∨ ("pr" : String) = "rr") by decide)]
    simp only [Bool.or_false, Option.some.injEq]
    rw [hmem_r]
    constructor
    · intro hm; exact Or.inl ⟨Or.inr trivial, hm⟩
    · rintro (⟨_, hm⟩ | ⟨hrole2, _⟩)
      · exact hm
      · exact absurd hrole2 (by decide)

/-- Fixture graph for the C4 witness (from the repository's own
`test_CheckConnection`). -/
def fixtureGraphC4 : Graph :=
  { nodes := [(1, { type := "c", mid := "C1" }),
              (3, { type := "rf", mid := "R1", c := some [1] })],
    edges := [], cmid2node := [("C1", 1)],
    mine_data := [("C1", { _id := some "C1", Reactant_in := some ["R1"] })] }

/-- Witness for C4 at a concrete input. -/
theorem checkConnection_fidelity_witness :
    (CheckConnection fixtureGraphC4 1 3).isSome = true ∧
    (CheckConnection fixtureGraphC4 1 3 = some true ↔
      ((("rf" : String) = "rf" ∨ ("rf" : String) = "pr") ∧
        "R1" ∈ ((alookup fixtureGraphC4.mine_data "C1").bind
          Record.Reactant_in).getD []) ∨
      ((("rf" : String) = "pf" ∨ ("rf" : String) = "rr") ∧
        "R1" ∈ ((alookup fixtureGraphC4.mine_data "C1").bind
          Record.Product_of).getD [])) :=
  checkConnection_fidelity fixtureGraphC4 1 3
    { type := "c", mid := "C1" } { type := "rf", mid := "R1", c := some [1] }
    rfl rfl rfl (Or.inl rfl)


/-! ## Claim C2: the compound-limit bound

The source adds every admitted seed before any size check, so the `≤
comp_limit` bound only holds when the admitted seeds leave room; the
counterexample below feeds two seeds with `comp_limit = 1`. -/

theorem bool_eq_false {b : Bool} (h : ¬ (b = true)) : b = false := by
  cases b
  · rfl
  · exact absurd rfl h

/-- During expansion (before a mid-step return) the stored compounds number
at most `comps`, which is still below the limit. -/
def SizeInv (cl : Nat) (st : ExpandState) : Prop :=
  st.comp_dict.length ≤ st.comps ∧ st.comps < cl

/-- What holds after a batch-processing call: on a mid-step return the
dictionary is within the limit, otherwise `SizeInv` still holds. -/
def PostInv (cl : Nat) (r : ExpandState × Bool) : Prop :=
  (r.2 = true → r.1.comp_dict.length ≤ cl) ∧ (r.2 = false → SizeInv cl r.1)

theorem addSeedComps_length (Cl : Nat) :
    ∀ (l : List (Option Record)) (acc : List (String × Record) × Nat),
      acc.1.length ≤ acc.2 →
      (addSeedComps Cl l acc).1.length ≤ (addSeedComps Cl l acc).2 := by
  intro l
  induction l with
  | nil => intro acc h; exact h
  | cons o rest ih =>
    intro acc h
    obtain ⟨d, c⟩ := acc
    cases o with
    | none => exact ih (d, c) h
    | some comp =>
      cases hcid : comp._id with
      | none =>
        have he : addSeedComps Cl (some comp :: rest) (d, c) =
            addSeedComps Cl rest (d, c) := by
          show (match comp._id with
                | none => addSeedComps Cl rest (d, c)
                | some comp_id =>
                  if LimitCarbon comp Cl then addSeedComps Cl rest (d, c)
                  else addSeedComps Cl rest (dictInsert d comp_id comp, c + 1)) = _
          rw [hcid]
        rw [he]
        exact ih (d, c) h
      | some comp_id =>
        have he : addSeedComps Cl (some comp :: rest) (d, c) =
            (if LimitCarbon comp Cl then addSeedComps Cl rest (d, c)
             else addSeedComps Cl rest (dictInsert d comp_id comp, c + 1)) := by
          show (match comp._id with
                | none => addSeedComps Cl rest (d, c)
                | some comp_id =>
                  if LimitCarbon comp Cl then addSeedComps Cl rest (d, c)
                  else addSeedComps Cl rest (dictInsert d comp_id comp, c + 1)) = _
          rw [hcid]
        rw [he]
        by_cases hl : LimitCarbon comp Cl
        · rw [if_pos hl]
          exact ih (d, c) h
        · rw [if_neg hl]
          refine ih (dictInsert d comp_id comp, c + 1) ?_
          calc (dictInsert d comp_id comp).length ≤ d.length + 1 :=
                dictInsert_length_le d comp_id comp
            _ ≤ c + 1 := Nat.succ_le_succ h

theorem harvestComps_post (cl : Nat) :
    ∀ (pairs : List (String × Record)) (st : ExpandState), SizeInv cl st →
      PostInv cl (harvestComps cl pairs st) := by
  intro pairs
  induction pairs with
  | nil =>
    intro st h
    show PostInv cl (st, false)
    exact ⟨fun hx => absurd hx (by simp), fun _ => h⟩
  | cons p rest ih =>
    intro st h
    obtain ⟨cid, comp⟩ := p
    have hlen : (dictInsert st.comp_dict cid comp).length ≤ st.comps + 1 :=
      le_trans (dictInsert_length_le _ _ _) (Nat.succ_le_succ h.1)
    by_cases hc : st.comps + 1 ≥ cl
    · have he : harvestComps cl ((cid, comp) :: rest) st =
          ({ st with comp_dict := dictInsert st.comp_dict cid comp,
                     comps := st.comps + 1 }, true) := by
        show (if st.comps + 1 ≥ cl then
                ({ st with comp_dict := dictInsert st.comp_dict cid comp,
                           comps := st.comps + 1 }, true)
              else harvestComps cl rest
                { st with comp_dict := dictInsert st.comp_dict cid comp,
                          comps := st.comps + 1 }) = _
        rw [if_pos hc]
      rw [he]
      refine ⟨fun _ => ?_, fun hx => absurd hx (by simp)⟩
      exact le_trans hlen (Nat.succ_le_of_lt h.2)
    · have he : harvestComps cl ((cid, comp) :: rest) st =
          harvestComps cl rest
            { st with comp_dict := dictInsert st.comp_dict cid comp,
                      comps := st.comps + 1 } := by
        show (if st.comps + 1 ≥ cl then
                ({ st with comp_dict := dictInsert st.comp_dict cid comp,
                           comps := st.comps + 1 }, true)
              else harvestComps cl rest
                { st with comp_dict := dictInsert st.comp_dict cid comp,
                          comps := st.comps + 1 }) = _
        rw [if_neg hc]
      rw [he]
      exact ih _ ⟨hlen, Nat.lt_of_not_le (fun hle => hc hle)⟩

theorem processRxn_post (Cl cl : Nat) (st : ExpandState) (rxn : Record)
    (h : SizeInv cl st) : PostInv cl (processRxn Cl cl st rxn) := by
  cases hid : rxn._id with
  | none =>
    have he : processRxn Cl cl st rxn = (st, false) := by
      unfold processRxn
      rw [hid]
    rw [he]
    exact ⟨fun hx => absurd hx (by simp), fun _ => h⟩
  | some rxn_id =>
    have he0 : processRxn Cl cl st rxn =
        (match walkRxnComps Cl st.comp_dict st.comp_cache
            (ExtractReactionCompIds rxn) [] with
         | Sum.inr cid =>
           ({ st with
               comp_exceeding_C_limit := setInsert st.comp_exceeding_C_limit cid,
               rxn_exceeding_C_limit := setInsert st.rxn_exceeding_C_limit rxn_id },
            false)
         | Sum.inl new_rxn_comp_ids =>
           if rxn_id ∈ st.rxn_exceeding_C_limit then (st, false)
           else
             harvestComps cl new_rxn_comp_ids
               { st with rxn_dict := dictInsert st.rxn_dict rxn_id rxn }) := by
      unfold processRxn
      rw [hid]
    cases hw : walkRxnComps Cl st.comp_dict st.comp_cache
        (ExtractReactionCompIds rxn) [] with
    | inr cid =>
      rw [he0, hw]
      exact ⟨fun hx => absurd hx (by simp), fun _ => h⟩
    | inl new_ids =>
      rw [he0, hw]
      show PostInv cl
        (if rxn_id ∈ st.rxn_exceeding_C_limit then (st, false)
         else harvestComps cl new_ids
           { st with rxn_dict := dictInsert st.rxn_dict rxn_id rxn })
      by_cases hm : rxn_id ∈ st.rxn_exceeding_C_limit
      · rw [if_pos hm]
        exact ⟨fun hx => absurd hx (by simp), fun _ => h⟩
      · rw [if_neg hm]
        exact harvestComps_post cl new_ids _ h

theorem processRxns_post (Cl cl : Nat) :
    ∀ (l : List (Option Record)) (st : ExpandState), SizeInv cl st →
      PostInv cl (processRxns Cl cl l st) := by
  intro l
  induction l with
  | nil =>
    intro st h
    show PostInv cl (st, false)
    exact ⟨fun hx => absurd hx (by simp), fun _ => h⟩
  | cons o rest ih =>
    intro st h
    cases o with
    | none => exact ih st h
    | some rxn =>
      have hp := processRxn_post Cl cl st rxn h
      by_cases hb : (processRxn Cl cl st rxn).2 = true
      · have he : processRxns Cl cl (some rxn :: rest) st =
            processRxn Cl cl st rxn := by
          show (if (processRxn Cl cl st rxn).2 = true then processRxn Cl cl st rxn
                else processRxns Cl cl rest (processRxn Cl cl st rxn).1) = _
          rw [if_pos hb]
        rw [he]
        exact hp
      · have he : processRxns Cl cl (some rxn :: rest) st =
            processRxns Cl cl rest (processRxn Cl cl st rxn).1 := by
          show (if (processRxn Cl cl st rxn).2 = true then processRxn Cl cl st rxn
                else processRxns Cl cl rest (processRxn Cl cl st rxn).1) = _
          rw [if_neg hb]
        rw [he]
        exact ih _ (hp.2 (bool_eq_false hb))

theorem stepTail_post (Cl cl : Nat) (rxns : List (Option Record))
    (st1 : ExpandState) (un : List String) (h : SizeInv cl st1) :
    PostInv cl
      (if (processRxns Cl cl rxns st1).2 then processRxns Cl cl rxns st1
       else ({ (processRxns Cl cl rxns st1).1 with
               extended_comp_ids :=
                 (processRxns Cl cl rxns st1).1.extended_comp_ids ++ un },
             false)) := by
  have hp := processRxns_post Cl cl rxns st1 h
  by_cases hb : (processRxns Cl cl rxns st1).2 = true
  · rw [if_pos hb]
    exact hp
  · rw [if_neg hb]
    have hs := hp.2 (bool_eq_false hb)
    exact ⟨fun hx => absurd hx (by simp), fun _ => hs⟩

theorem expandStep_post (con : MineDB) (Cl cl : Nat) (st : ExpandState)
    (h : SizeInv cl st) : PostInv cl (expandStep con Cl cl st) := by
  apply stepTail_post
  exact h

theorem expandLoop_bound (con : MineDB) (Cl cl : Nat) :
    ∀ (n : Nat) (st : ExpandState), SizeInv cl st →
      (expandLoop con Cl cl n st).comp_dict.length ≤ cl := by
  intro n
  induction n with
  | zero => intro st h; exact le_trans h.1 (Nat.le_of_lt h.2)
  | succ n ih =>
    intro st h
    have hp := expandStep_post con Cl cl st h
    by_cases hb : (expandStep con Cl cl st).2 = true
    · have he : expandLoop con Cl cl (n + 1) st = (expandStep con Cl cl st).1 := by
        show (if (expandStep con Cl cl st).2 = true then (expandStep con Cl cl st).1
              else expandLoop con Cl cl n (expandStep con Cl cl st).1) = _
        rw [if_pos hb]
      rw [he]
      exact hp.1 hb
    · have he : expandLoop con Cl cl (n + 1) st =
          expandLoop con Cl cl n (expandStep con Cl cl st).1 := by
        show (if (expandStep con Cl cl st).2 = true then (expandStep con Cl cl st).1
              else expandLoop con Cl cl n (expandStep con Cl cl st).1) = _
        rw [if_neg hb]
      rw [he]
      exact ih _ (hp.2 (bool_eq_false hb))

/-- C2 amended: provided the admitted seed compounds number strictly fewer
than `comp_limit`, the compound dictionary returned by `GetRawNetwork` has
at most `comp_limit` entries. -/
theorem getRawNetwork_comp_limit_bound (con : MineDB) (ids : List String)
    (sl cl Cl : Nat) (hseed : (seedResult con ids Cl).2 < cl) :
    (GetRawNetwork con ids sl cl Cl).1.length ≤ cl := by
  have hinit : SizeInv cl
      { comp_dict := (seedResult con ids Cl).1,
        rxn_dict := [],
        comps := (seedResult con ids Cl).2,
        extended_comp_ids := [],
        rxn_exceeding_C_limit := [],
        comp_exceeding_C_limit := [],
        comp_cache := [] } :=
    ⟨addSeedComps_length Cl (ThreadedGetComps con ids) ([], 0) (Nat.le_refl 0),
     hseed⟩
  exact expandLoop_bound con Cl cl sl _ hinit

/-- Fixture database for the C2 counterexample: two small seed compounds. -/
def dbTwoSeedsC2 : MineDB :=
  { getComp := fun s =>
      if s = "C1" then some { _id := some "C1" }
      else if s = "C2" then some { _id := some "C2" } else none,
    getRxn := fun _ => none }

/-- C2 counterexample: with two admissible seeds and `comp_limit = 1` the
returned compound dictionary has 2 entries — the claimed bound
`|comp_dict| ≤ comp_limit` fails, because the seed phase never consults the
compound limit. -/
theorem getRawNetwork_comp_limit_counterexample :
    (GetRawNetwork dbTwoSeedsC2 ["C1", "C2"] 0 1 25).1.length = 2 ∧
    ¬ ((GetRawNetwork dbTwoSeedsC2 ["C1", "C2"] 0 1 25).1.length ≤ 1) := by
  decide

/-- The empty database for the C2 witness. -/
def emptyDB : MineDB := { getComp := fun _ => none, getRxn := fun _ => none }

/-- Witness for the amended C2 at a concrete input. -/
theorem getRawNetwork_comp_limit_bound_witness :
    (GetRawNetwork emptyDB [] 2 1 25).1.length ≤ 1 :=
  getRawNetwork_comp_limit_bound emptyDB [] 2 1 25 (by decide)

/-! ## Claim C1: quad-node completeness of `AddQuadReactionNode` -/

theorem mem_foldl_setInsert {κ : Type} [DecidableEq κ] {x : κ} :
    ∀ (l acc : List κ), x ∈ l.foldl setInsert acc ↔ x ∈ acc ∨ x ∈ l := by
  intro l
  induction l with
  | nil => intro acc; simp
  | cons y ys ih =>
    intro acc
    rw [List.foldl_cons, ih (setInsert acc y)]
    constructor
    · rintro (h | h)
      · rcases mem_setInsert.mp h with rfl | h
        · exact Or.inr (List.mem_cons_self _ _)
        · exact Or.inl h
      · exact Or.inr (List.mem_cons_of_mem _ h)
    · rintro (h | h)
      · exact Or.inl (mem_setInsert_of_mem _ h)
      · rcases List.mem_cons.mp h with rfl | h
        · exact Or.inl (mem_setInsert_self _ _)
        · exact Or.inr h

theorem mem_listToSet {κ : Type} [DecidableEq κ] {x : κ} {l : List κ} :
    x ∈ listToSet l ↔ x ∈ l := by
  unfold listToSet
  rw [mem_foldl_setInsert]
  simp

theorem resolveComps_some_of_all (g : Graph) :
    ∀ l : List String, (∀ m ∈ l, (alookup g.cmid2node m).isSome = true) →
      ∃ ns, resolveComps g l = some ns ∧
        ∀ n ∈ ns, ∃ m, alookup g.cmid2node m = some n := by
  intro l
  induction l with
  | nil => intro _; exact ⟨[], rfl, by simp⟩
  | cons m rest ih =>
    intro h
    have hm := h m (List.mem_cons_self _ _)
    cases hm0 : alookup g.cmid2node m with
    | none => rw [hm0] at hm; simp at hm
    | some n =>
      obtain ⟨ns, hns, hmem⟩ := ih (fun m' hm' => h m' (List.mem_cons_of_mem _ hm'))
      refine ⟨n :: ns, ?_, ?_⟩
      · unfold resolveComps
        rw [hm0, hns]
      · intro n' hn'
        rcases List.mem_cons.mp hn' with rfl | hn'
        · exact ⟨m, hm0⟩
        · exact hmem n' hn'

theorem resolveComps_none_of_missing (g : Graph) {m : String} :
    ∀ l : List String, m ∈ l → alookup g.cmid2node m = none →
      resolveComps g l = none := by
  intro l
  induction l with
  | nil => intro h; simp at h
  | cons m' rest ih =>
    intro hm hnone
    rcases List.mem_cons.mp hm with rfl | hm
    · unfold resolveComps
      rw [hnone]
    · unfold resolveComps
      cases h0 : alookup g.cmid2node m' with
      | none => rfl
      | some n => rw [ih hm hnone]

theorem checkConnection_isSome (g : Graph) (c r : Nat)
    (hc : (alookup g.nodes c).isSome = true)
    (hr : (alookup g.nodes r).isSome = true) :
    ∃ b, CheckConnection g c r = some b := by
  unfold CheckConnection
  cases hc0 : alookup g.nodes c with
  | none => rw [hc0] at hc; simp at hc
  | some cn =>
    cases hr0 : alookup g.nodes r with
    | none => rw [hr0] at hr; simp at hr
    | some rn => exact ⟨_, rfl⟩

theorem connectRole_some (N : Nat) (dir : Bool) :
    ∀ (cs : List Nat) (g : Graph),
      (∀ c ∈ cs, (alookup g.nodes c).isSome = true) →
      (alookup g.nodes N).isSome = true →
      ∃ g', connectRole g cs N dir = some g' ∧ g'.nodes = g.nodes ∧
        g'.cmid2node = g.cmid2node ∧ g'.mine_data = g.mine_data ∧
        ∀ e ∈ g.edges, e ∈ g'.edges := by
  intro cs
  induction cs with
  | nil =>
    intro g _ _
    exact ⟨g, rfl, rfl, rfl, rfl, fun _ he => he⟩
  | cons c rest ih =>
    intro g hcs hN
    obtain ⟨b, hb⟩ := checkConnection_isSome g c N (hcs c (List.mem_cons_self _ _)) hN
    have he : connectRole g (c :: rest) N dir =
        connectRole (if b then addEdge g (if dir then (c, N) else (N, c)) else g)
          rest N dir := by
      show (match CheckConnection g c N with
            | none => none
            | some b =>
              connectRole (if b then addEdge g (if dir then (c, N) else (N, c)) else g)
                rest N dir) = _
      rw [hb]
    rw [he]
    have hnodes2 : (if b then addEdge g (if dir then (c, N) else (N, c)) else g).nodes
        = g.nodes := by cases b <;> rfl
    have hcm2 : (if b then addEdge g (if dir then (c, N) else (N, c)) else g).cmid2node
        = g.cmid2node := by cases b <;> rfl
    have hmd2 : (if b then addEdge g (if dir then (c, N) else (N, c)) else g).mine_data
        = g.mine_data := by cases b <;> rfl
    have hedge2 : ∀ e ∈ g.edges,
        e ∈ (if b then addEdge g (if dir then (c, N) else (N, c)) else g).edges := by
      cases b
      · intro e he'; exact he'
      · intro e he'; exact mem_setInsert_of_mem _ he'
    obtain ⟨g', hg', hn', hc', hm', he'⟩ :=
      ih (if b then addEdge g (if dir then (c, N) else (N, c)) else g)
        (fun c' hc'' => by rw [hnodes2]; exact hcs c' (List.mem_cons_of_mem _ hc''))
        (by rw [hnodes2]; exact hN)
    exact ⟨g', hg', by rw [hn', hnodes2], by rw [hc', hcm2], by rw [hm', hmd2],
      fun e he'' => he' e (hedge2 e he'')⟩

theorem dictInsert_of_none {κ α : Type} [DecidableEq κ]
    {d : List (κ × α)} {k : κ} (v : α) (h : alookup d k = none) :
    dictInsert d k v = d ++ [(k, v)] := by
  unfold dictInsert
  rw [if_neg (by simp [h])]

theorem alookup_none_of_bound {d : List (Nat × Node)} {c k : Nat}
    (hd : ∀ p ∈ d, p.1 < c) (hk : c ≤ k) : alookup d k = none :=
  alookup_eq_none (fun p hp => Nat.ne_of_lt (Nat.lt_of_lt_of_le (hd p hp) hk))

theorem alookup_addNode_self (g : Graph) (n : Nat) (nd : Node) :
    (alookup (addNode g n nd).nodes n).isSome = true := by
  show (alookup (dictInsert g.nodes n nd) n).isSome = true
  rw [alookup_dictInsert_self]
  rfl

theorem alookup_addNode_isSome (g : Graph) (n : Nat) (nd : Node) {k : Nat}
    (h : (alookup g.nodes k).isSome = true) :
    (alookup (addNode g n nd).nodes k).isSome = true :=
  alookup_isSome_dictInsert n nd h

theorem quadBody_spec (graph : Graph) (rxn_id : String) (rf pf : List Nat)
    (hRF : ∀ n ∈ rf, (alookup graph.nodes n).isSome = true)
    (hPF : ∀ n ∈ pf, (alookup graph.nodes n).isSome = true) :
    ∃ g', quadBody graph rxn_id rf pf = some g' ∧
      g'.nodes = dictInsert (dictInsert (dictInsert (dictInsert graph.nodes
        (graph.nodes.length + 1) { type := "rf", mid := rxn_id, c := some rf })
        (graph.nodes.length + 2) { type := "pf", mid := rxn_id, c := some pf })
        (graph.nodes.length + 3) { type := "rr", mid := rxn_id, c := some pf })
        (graph.nodes.length + 4) { type := "pr", mid := rxn_id, c := some rf } ∧
      (graph.nodes.length + 1, graph.nodes.length + 2) ∈ g'.edges ∧
      (graph.nodes.length + 3, graph.nodes.length + 4) ∈ g'.edges := by
  obtain ⟨g2, hcr2, hn2, _, _, he2⟩ :=
    connectRole_some (graph.nodes.length + 1) true rf
      (addNode graph (graph.nodes.length + 1)
        { type := "rf", mid := rxn_id, c := some rf })
      (fun c hc => alookup_addNode_isSome _ _ _ (hRF c hc))
      (alookup_addNode_self _ _ _)
  obtain ⟨g3, hcr3, hn3, _, _, he3⟩ :=
    connectRole_some (graph.nodes.length + 2) false pf
      (addNode g2 (graph.nodes.length + 2)
        { type := "pf", mid := rxn_id, c := some pf })
      (fun c hc => alookup_addNode_isSome _ _ _
        (by rw [hn2]; exact alookup_addNode_isSome _ _ _ (hPF c hc)))
      (alookup_addNode_self _ _ _)
  obtain ⟨g4, hcr4, hn4, _, _, he4⟩ :=
    connectRole_some (graph.nodes.length + 3) true pf
      (addNode (addEdge g3 (graph.nodes.length + 1, graph.nodes.length + 2))
        (graph.nodes.length + 3) { type := "rr", mid := rxn_id, c := some pf })
      (fun c hc => alookup_addNode_isSome _ _ _
        (show (alookup g3.nodes c).isSome = true by
          rw [hn3]
          exact alookup_addNode_isSome _ _ _
            (by rw [hn2]; exact alookup_addNode_isSome _ _ _ (hPF c hc))))
      (alookup_addNode_self _ _ _)
  obtain ⟨g5, hcr5, hn5, _, _, he5⟩ :=
    connectRole_some (graph.nodes.length + 4) false rf
      (addNode g4 (graph.nodes.length + 4)
        { type := "pr", mid := rxn_id, c := some rf })
      (fun c hc => alookup_addNode_isSome _ _ _
        (by rw [hn4]
            exact alookup_addNode_isSome _ _ _
              (show (alookup g3.nodes c).isSome = true by
                rw [hn3]
                exact alookup_addNode_isSome _ _ _
                  (by rw [hn2]; exact alookup_addNode_isSome _ _ _ (hRF c hc)))))
      (alookup_addNode_self _ _ _)
  refine ⟨addEdge g5 (graph.nodes.length + 3, graph.nodes.length + 4), ?_, ?_, ?_, ?_⟩
  · unfold quadBody
    rw [hcr2]
    simp only [Option.some_bind]
    rw [hcr3]
    simp only [Option.some_bind]
    rw [hcr4]
    simp only [Option.some_bind]
    rw [hcr5]
    simp only [Option.map_some']
  · show g5.nodes = _
    calc g5.nodes
        = (addNode g4 (graph.nodes.length + 4)
            { type := "pr", mid := rxn_id, c := some rf }).nodes := hn5
      _ = dictInsert g4.nodes (graph.nodes.length + 4)
            { type := "pr", mid := rxn_id, c := some rf } := rfl
      _ = dictInsert (addNode
            (addEdge g3 (graph.nodes.length + 1, graph.nodes.length + 2))
            (graph.nodes.length + 3)
            { type := "rr", mid := rxn_id, c := some pf }).nodes
            (graph.nodes.length + 4)
            { type := "pr", mid := rxn_id, c := some rf } := by rw [hn4]
      _ = dictInsert (dictInsert g3.nodes (graph.nodes.length + 3)
            { type := "rr", mid := rxn_id, c := some pf })
            (graph.nodes.length + 4)
            { type := "pr", mid := rxn_id, c := some rf } := rfl
      _ = dictInsert (dictInsert (addNode g2 (graph.nodes.length + 2)
            { type := "pf", mid := rxn_id, c := some pf }).nodes
            (graph.nodes.length + 3)
            { type := "rr", mid := rxn_id, c := some pf })
            (graph.nodes.length + 4)
            { type := "pr", mid := rxn_id, c := some rf } := by rw [hn3]
      _ = dictInsert (dictInsert (dictInsert g2.nodes (graph.nodes.length + 2)
            { type := "pf", mid := rxn_id, c := some pf })
            (graph.nodes.length + 3)
            { type := "rr", mid := rxn_id, c := some pf })
            (graph.nodes.length + 4)
            { type := "pr", mid := rxn_id, c := some rf } := rfl
      _ = dictInsert (dictInsert (dictInsert (addNode graph
            (graph.nodes.length + 1)
            { type := "rf", mid := rxn_id, c := some rf }).nodes
            (graph.nodes.length + 2)
            { type := "pf", mid := rxn_id, c := some pf })
            (graph.nodes.length + 3)
            { type := "rr", mid := rxn_id, c := some pf })
            (graph.nodes.length + 4)
            { type := "pr", mid := rxn_id, c := some rf } := by rw [hn2]
      _ = dictInsert (dictInsert (dictInsert (dictInsert graph.nodes
            (graph.nodes.length + 1)
            { type := "rf", mid := rxn_id, c := some rf })
            (graph.nodes.length + 2)
            { type := "pf", mid := rxn_id, c := some pf })
            (graph.nodes.length + 3)
            { type := "rr", mid := rxn_id, c := some pf })
            (graph.nodes.length + 4)
            { type := "pr", mid := rxn_id, c := some rf } := rfl
  · exact mem_setInsert_of_mem _
      (he5 _ (he4 _ (mem_setInsert_self g3.edges
        (graph.nodes.length + 1, graph.nodes.length + 2))))
  · exact mem_setInsert_self _ _

/-- C1 amended: for a reaction carrying an id, a reactant list and a
product list, over a graph whose node numbers all lie within the node count
(so the four numbers the function assigns are fresh) and whose compound
index resolves only to existing nodes — both hold for the graphs
`ConstructNetwork` builds — `AddQuadReactionNode` either adds exactly four
role nodes of types `rf`/`pf`/`rr`/`pr` carrying the reaction id, together
with the role-to-role edges `rf→pf` and `rr→pr`, when every participant
resolves through `cmid2node`; or, when any participant is missing from the
index, returns the graph with zero nodes and zero edges added. -/
theorem addQuadReactionNode_quad_completeness (graph : Graph) (rxn : Record)
    (rxn_id : String) (rs ps : List (Nat × String))
    (hid : rxn._id = some rxn_id)
    (hr : rxn.Reactants = some rs) (hp : rxn.Products = some ps)
    (hdense : ∀ p ∈ graph.nodes, p.1 < graph.nodes.length + 1)
    (hWF : ∀ p ∈ graph.cmid2node, (alookup graph.nodes p.2).isSome = true) :
    ((∀ m ∈ rs.map Prod.snd ++ ps.map Prod.snd,
        (alookup graph.cmid2node m).isSome = true) →
      ((AddQuadReactionNode graph rxn).map (fun g => g.nodes.length) =
        some (graph.nodes.length + 4) ∧
       (AddQuadReactionNode graph rxn).map (fun g =>
          ((alookup g.nodes (graph.nodes.length + 1)).map (fun nd => (nd.type, nd.mid)),
           (alookup g.nodes (graph.nodes.length + 2)).map (fun nd => (nd.type, nd.mid)),
           (alookup g.nodes (graph.nodes.length + 3)).map (fun nd => (nd.type, nd.mid)),
           (alookup g.nodes (graph.nodes.length + 4)).map (fun nd => (nd.type, nd.mid)))) =
        some (some ("rf", rxn_id), some ("pf", rxn_id),
              some ("rr", rxn_id), some ("pr", rxn_id)) ∧
       (AddQuadReactionNode graph rxn).map (fun g =>
          decide ((graph.nodes.length + 1, graph.nodes.length + 2) ∈ g.edges) &&
          decide ((graph.nodes.length + 3, graph.nodes.length + 4) ∈ g.edges)) =
        some true)) ∧
    (∀ m ∈ rs.map Prod.snd ++ ps.map Prod.snd,
      alookup graph.cmid2node m = none →
      AddQuadReactionNode graph rxn = some graph) := by
  constructor
  · intro hres
    have hresR : ∀ m ∈ listToSet (rs.map Prod.snd),
        (alookup graph.cmid2node m).isSome = true :=
      fun m hm => hres m (List.mem_append_left _ (mem_listToSet.mp hm))
    have hresP : ∀ m ∈ listToSet (ps.map Prod.snd),
        (alookup graph.cmid2node m).isSome = true :=
      fun m hm => hres m (List.mem_append_right _ (mem_listToSet.mp hm))
    obtain ⟨rfN, hrfN, hrfm⟩ := resolveComps_some_of_all graph _ hresR
    obtain ⟨pfN, hpfN, hpfm⟩ := resolveComps_some_of_all graph _ hresP
    have hnodeOf : ∀ n, (∃ m, alookup graph.cmid2node m = some n) →
        (alookup graph.nodes n).isSome = true := by
      rintro n ⟨m, hm⟩
      exact hWF (m, n) (alookup_mem hm)
    have hRF : ∀ n ∈ listToSet rfN, (alookup graph.nodes n).isSome = true :=
      fun n hn => hnodeOf n (hrfm n (mem_listToSet.mp hn))
    have hPF : ∀ n ∈ listToSet pfN, (alookup graph.nodes n).isSome = true :=
      fun n hn => hnodeOf n (hpfm n (mem_listToSet.mp hn))
    obtain ⟨g', hg', hnodes', he12, he34⟩ :=
      quadBody_spec graph rxn_id (listToSet rfN) (listToSet pfN) hRF hPF
    have hadd : AddQuadReactionNode graph rxn =
        quadBody graph rxn_id (listToSet rfN) (listToSet pfN) := by
      unfold AddQuadReactionNode
      rw [hid, hr, hp]
      show (match resolveComps graph (listToSet (rs.map Prod.snd)) with
            | none => some graph
            | some rf_nodes =>
              match resolveComps graph (listToSet (ps.map Prod.snd)) with
              | none => some graph
              | some pf_nodes =>
                quadBody graph rxn_id (listToSet rf_nodes) (listToSet pf_nodes)) = _
      rw [hrfN, hpfN]
    rw [hadd, hg']
    have hfresh1 : alookup graph.nodes (graph.nodes.length + 1) = none :=
      alookup_none_of_bound hdense (Nat.le_refl _)
    have hfresh2 : alookup graph.nodes (graph.nodes.length + 2) = none :=
      alookup_none_of_bound hdense (by omega)
    have hfresh3 : alookup graph.nodes (graph.nodes.length + 3) = none :=
      alookup_none_of_bound hdense (by omega)
    have hfresh4 : alookup graph.nodes (graph.nodes.length + 4) = none :=
      alookup_none_of_bound hdense (by omega)
    have hne21 : graph.nodes.length + 2 ≠ graph.nodes.length + 1 := by omega
    have hne31 : graph.nodes.length + 3 ≠ graph.nodes.length + 1 := by omega
    have hne41 : graph.nodes.length + 4 ≠ graph.nodes.length + 1 := by omega
    have hne32 : graph.nodes.length + 3 ≠ graph.nodes.length + 2 := by omega
    have hne42 : graph.nodes.length + 4 ≠ graph.nodes.length + 2 := by omega
    have hne43 : graph.nodes.length + 4 ≠ graph.nodes.length + 3 := by omega
    have hne12 : graph.nodes.length + 1 ≠ graph.nodes.length + 2 := by omega
    have hne13 : graph.nodes.length + 1 ≠ graph.nodes.length + 3 := by omega
    have hne14 : graph.nodes.length + 1 ≠ graph.nodes.length + 4 := by omega
    have hne23 : graph.nodes.length + 2 ≠ graph.nodes.length + 3 := by omega
    have hne24 : graph.nodes.length + 2 ≠ graph.nodes.length + 4 := by omega
    have hne34 : graph.nodes.length + 3 ≠ graph.nodes.length + 4 := by omega
    refine ⟨?_, ?_, ?_⟩
    · simp only [Option.map_some', Option.some.injEq]
      rw [hnodes']
      rw [dictInsert_length_of_none _
          (by rw [alookup_dictInsert_ne _ _ hne43, alookup_dictInsert_ne _ _ hne42,
                  alookup_dictInsert_ne _ _ hne41]; exact hfresh4),
        dictInsert_length_of_none _
          (by rw [alookup_dictInsert_ne _ _ hne32, alookup_dictInsert_ne _ _ hne31]
              exact hfresh3),
        dictInsert_length_of_none _
          (by rw [alookup_dictInsert_ne _ _ hne21]; exact hfresh2),
        dictInsert_length_of_none _ hfresh1]
    · simp only [Option.map_some', Option.some.injEq]
      rw [hnodes']
      rw [alookup_dictInsert_ne _ _ hne14, alookup_dictInsert_ne _ _ hne13,
        alookup_dictInsert_ne _ _ hne12, alookup_dictInsert_self]
      rw [alookup_dictInsert_ne _ _ hne24, alookup_dictInsert_ne _ _ hne23,
        alookup_dictInsert_self]
      rw [alookup_dictInsert_ne _ _ hne34, alookup_dictInsert_self]
      rw [alookup_dictInsert_self]
      rfl
    · simp only [Option.map_some', Option.some.injEq]
      rw [Bool.and_eq_true, decide_eq_true_eq, decide_eq_true_eq]
      exact ⟨he12, he34⟩
  · intro m hm hnone
    rcases List.mem_append.mp hm with hmr | hmp
    · have hrnone : resolveComps graph (listToSet (rs.map Prod.snd)) = none :=
        resolveComps_none_of_missing graph _ (mem_listToSet.mpr hmr) hnone
      unfold AddQuadReactionNode
      rw [hid, hr, hp]
      show (match resolveComps graph (listToSet (rs.map Prod.snd)) with
            | none => some graph
            | some rf_nodes =>
              match resolveComps graph (listToSet (ps.map Prod.snd)) with
              | none => some graph
              | some pf_nodes =>
                quadBody graph rxn_id (listToSet rf_nodes) (listToSet pf_nodes)) =
        some graph
      rw [hrnone]
    · have hpnone : resolveComps graph (listToSet (ps.map Prod.snd)) = none :=
        resolveComps_none_of_missing graph _ (mem_listToSet.mpr hmp) hnone
      unfold AddQuadReactionNode
      rw [hid, hr, hp]
      show (match resolveComps graph (listToSet (rs.map Prod.snd)) with
            | none => some graph
            | some rf_nodes =>
              match resolveComps graph (listToSet (ps.map Prod.snd)) with
              | none => some graph
              | some pf_nodes =>
                quadBody graph rxn_id (listToSet rf_nodes) (listToSet pf_nodes)) =
        some graph
      cases h0 : resolveComps graph (listToSet (rs.map Prod.snd)) with
      | none => rfl
      | some rfN0 =>
        show (match resolveComps graph (listToSet (ps.map Prod.snd)) with
              | none => some graph
              | some pf_nodes =>
                quadBody graph rxn_id (listToSet rfN0) (listToSet pf_nodes)) =
          some graph
        rw [hpnone]

/-- Fixture for the C1 counterexample: a graph whose only node carries the
number 2, so `len(nodes)+1 = 2` collides with it. -/
def fixtureGraphC1 : Graph :=
  { nodes := [(2, { type := "c", mid := "C1", start := some false })],
    edges := [], cmid2node := [("C1", 2)], mine_data := [] }

/-- Fixture reaction for the C1 counterexample; its one participant
resolves through the index. -/
def fixtureRxnC1 : Record :=
  { _id := some "R1", Reactants := some [(1, "C1")], Products := some [(1, "C1")] }

/-- C1 counterexample: on a graph with non-dense node numbering whose
participants all resolve, `AddQuadReactionNode` overwrites the existing
compound node (networkx `add_node` updates an existing node) and the node
count grows by 3, not 4 — the claim fails for this graph. -/
theorem addQuadReactionNode_counterexample :
    (∀ m ∈ (fixtureRxnC1.Reactants.getD []).map Prod.snd ++
        (fixtureRxnC1.Products.getD []).map Prod.snd,
      (alookup fixtureGraphC1.cmid2node m).isSome = true) ∧
    fixtureGraphC1.nodes.length = 1 ∧
    (AddQuadReactionNode fixtureGraphC1 fixtureRxnC1).map
      (fun g => g.nodes.length) = some 4 ∧
    ¬ ((AddQuadReactionNode fixtureGraphC1 fixtureRxnC1).map
        (fun g => g.nodes.length) = some (fixtureGraphC1.nodes.length + 4)) := by
  decide

/-- Fixture for the C1 witness: a dense two-compound graph. -/
def fixtureGraphC1w : Graph :=
  { nodes := [(1, { type := "c", mid := "C1", start := some false }),
              (2, { type := "c", mid := "C2", start := some false })],
    edges := [], cmid2node := [("C1", 1), ("C2", 2)], mine_data := [] }

/-- Fixture reaction with all participants present. -/
def fixtureRxnC1w : Record :=
  { _id := some "R1", Reactants := some [(1, "C1")], Products := some [(1, "C2")] }

/-- Fixture reaction with a missing participant (`C9`). -/
def fixtureRxnC1m : Record :=
  { _id := some "R2", Reactants := some [(1, "C1")], Products := some [(1, "C9")] }

/-- Witness for the amended C1 at concrete inputs: the success case adds
exactly the four role nodes and both role-to-role edges, and the
missing-participant case returns the graph unchanged. -/
theorem addQuadReactionNode_quad_completeness_witness :
    ((AddQuadReactionNode fixtureGraphC1w fixtureRxnC1w).map
        (fun g => g.nodes.length) = some (fixtureGraphC1w.nodes.length + 4) ∧
     (AddQuadReactionNode fixtureGraphC1w fixtureRxnC1w).map (fun g =>
        ((alookup g.nodes (fixtureGraphC1w.nodes.length + 1)).map
           (fun nd => (nd.type, nd.mid)),
         (alookup g.nodes (fixtureGraphC1w.nodes.length + 2)).map
           (fun nd => (nd.type, nd.mid)),
         (alookup g.nodes (fixtureGraphC1w.nodes.length + 3)).map
           (fun nd => (nd.type, nd.mid)),
         (alookup g.nodes (fixtureGraphC1w.nodes.length + 4)).map
           (fun nd => (nd.type, nd.mid)))) =
       some (some ("rf", "R1"), some ("pf", "R1"),
             some ("rr", "R1"), some ("pr", "R1")) ∧
     (AddQuadReactionNode fixtureGraphC1w fixtureRxnC1w).map (fun g =>
        decide ((fixtureGraphC1w.nodes.length + 1,
                 fixtureGraphC1w.nodes.length + 2) ∈ g.edges) &&
        decide ((fixtureGraphC1w.nodes.length + 3,
                 fixtureGraphC1w.nodes.length + 4) ∈ g.edges)) = some true) ∧
    AddQuadReactionNode fixtureGraphC1w fixtureRxnC1m = some fixtureGraphC1w :=
  ⟨(addQuadReactionNode_quad_completeness fixtureGraphC1w fixtureRxnC1w "R1"
      [(1, "C1")] [(1, "C2")] rfl rfl rfl (by decide) (by decide)).1 (by decide),
   (addQuadReactionNode_quad_completeness fixtureGraphC1w fixtureRxnC1m "R2"
      [(1, "C1")] [(1, "C9")] rfl rfl rfl (by decide) (by decide)).2 "C9"
     (by decide) (by decide)⟩

/-! ## Claim C6: injectivity of `cmid2node` for `ConstructNetwork` graphs -/

theorem mem_replaceKey {κ α : Type} [DecidableEq κ] {p : κ × α} {k : κ} {v : α} :
    ∀ {d : List (κ × α)}, p ∈ replaceKey d k v → p ∈ d ∨ p = (k, v) := by
  intro d
  induction d with
  | nil => intro h; simp [replaceKey] at h
  | cons hd tl ih =>
    obtain ⟨k1, v1⟩ := hd
    intro h
    by_cases hk : k1 = k
    · rw [replaceKey, if_pos hk] at h
      rcases List.mem_cons.mp h with rfl | h
      · exact Or.inr rfl
      · rcases ih h with h | h
        · exact Or.inl (List.mem_cons_of_mem _ h)
        · exact Or.inr h
    · rw [replaceKey, if_neg hk] at h
      rcases List.mem_cons.mp h with rfl | h
      · exact Or.inl (List.mem_cons_self _ _)
      · rcases ih h with h | h
        · exact Or.inl (List.mem_cons_of_mem _ h)
        · exact Or.inr h

theorem mem_dictInsert {κ α : Type} [DecidableEq κ] {p : κ × α}
    {d : List (κ × α)} {k : κ} {v : α} (h : p ∈ dictInsert d k v) :
    p ∈ d ∨ p = (k, v) := by
  unfold dictInsert at h
  by_cases hs : (alookup d k).isSome
  · rw [if_pos hs] at h
    exact mem_replaceKey h
  · rw [if_neg hs] at h
    rcases List.mem_append.mp h with h | h
    · exact Or.inl h
    · simp at h
      exact Or.inr (by cases p; simp at h; simp [h.1, h.2])

/-- The invariant `ConstructNetwork` maintains: dense node numbering, an
index whose values stay within the node count and resolve to existing
nodes, and injectivity of the index. -/
def GInv (g : Graph) : Prop :=
  (∀ p ∈ g.nodes, p.1 < g.nodes.length + 1) ∧
  (∀ p ∈ g.cmid2node, p.2 ≤ g.nodes.length) ∧
  (∀ p ∈ g.cmid2node, (alookup g.nodes p.2).isSome = true) ∧
  (∀ m1 m2 n, alookup g.cmid2node m1 = some n →
    alookup g.cmid2node m2 = some n → m1 = m2)

theorem dense_extend {d : List (Nat × Node)}
    (hd : ∀ p ∈ d, p.1 < d.length + 1) (nd : Node) :
    (∀ p ∈ dictInsert d (d.length + 1) nd,
      p.1 < (dictInsert d (d.length + 1) nd).length + 1) ∧
    (dictInsert d (d.length + 1) nd).length = d.length + 1 := by
  have hfresh : alookup d (d.length + 1) = none :=
    alookup_none_of_bound hd (Nat.le_refl _)
  rw [dictInsert_of_none _ hfresh]
  constructor
  · intro p hp
    simp only [List.length_append, List.length_cons, List.length_nil]
    rcases List.mem_append.mp hp with h | h
    · have := hd p h
      omega
    · simp at h
      obtain ⟨k, v⟩ := p
      simp at h
      omega
  · simp

theorem addCompoundNode_GInv (graph : Graph) (compound : Record)
    (s : List String) (g' : Graph)
    (h : AddCompoundNode graph compound s = some g') (hg : GInv graph) :
    GInv g' := by
  cases hid : compound._id with
  | none =>
    have he : AddCompoundNode graph compound s = some graph := by
      unfold AddCompoundNode
      rw [hid]
    rw [he] at h
    injection h with h
    rw [← h]
    exact hg
  | some mid =>
    cases hf : compoundStartFlag compound mid s with
    | none =>
      rw [addCompoundNode_none_of_flag_none graph compound s mid hid hf] at h
      exact absurd h (by simp)
    | some flag =>
      rw [addCompoundNode_eq_of_id graph compound s mid flag hid hf] at h
      injection h with h
      subst h
      obtain ⟨hdense, hbound, hWF, hinj⟩ := hg
      obtain ⟨hdense', hlen'⟩ :=
        dense_extend hdense { type := "c", mid := mid, start := some flag, c := none }
      refine ⟨hdense', ?_, ?_, ?_⟩
      · intro p hp
        show p.2 ≤ (dictInsert graph.nodes (graph.nodes.length + 1) _).length
        rw [hlen']
        rcases mem_dictInsert hp with hp | hp
        · exact le_trans (hbound p hp) (Nat.le_succ _)
        · rw [hp]
      · intro p hp
        rcases mem_dictInsert hp with hp | hp
        · exact alookup_isSome_dictInsert _ _ (hWF p hp)
        · rw [hp]
          show (alookup (dictInsert graph.nodes (graph.nodes.length + 1) _)
            (graph.nodes.length + 1)).isSome = true
          rw [alookup_dictInsert_self]
          rfl
      · intro m1 m2 n h1 h2
        show m1 = m2
        by_cases hm1 : m1 = mid <;> by_cases hm2 : m2 = mid
        · rw [hm1, hm2]
        · rw [hm1] at h1
          rw [show alookup (dictInsert graph.cmid2node mid
              (graph.nodes.length + 1)) mid = some (graph.nodes.length + 1) from
              alookup_dictInsert_self _ _ _] at h1
          injection h1 with h1
          rw [alookup_dictInsert_ne _ _ hm2] at h2
          have := hbound (m2, n) (alookup_mem h2)
          simp only at this
          omega
        · rw [hm2] at h2
          rw [show alookup (dictInsert graph.cmid2node mid
              (graph.nodes.length + 1)) mid = some (graph.nodes.length + 1) from
              alookup_dictInsert_self _ _ _] at h2
          injection h2 with h2
          rw [alookup_dictInsert_ne _ _ hm1] at h1
          have := hbound (m1, n) (alookup_mem h1)
          simp only at this
          omega
        · rw [alookup_dictInsert_ne _ _ hm1] at h1
          rw [alookup_dictInsert_ne _ _ hm2] at h2
          exact hinj m1 m2 n h1 h2

theorem connectRole_some_shape (N : Nat) (dir : Bool) :
    ∀ (cs : List Nat) (g g' : Graph), connectRole g cs N dir = some g' →
      g'.nodes = g.nodes ∧ g'.cmid2node = g.cmid2node := by
  intro cs
  induction cs with
  | nil =>
    intro g g' h
    have h' : some g = some g' := h
    injection h' with h'
    rw [← h']
    exact ⟨rfl, rfl⟩
  | cons c rest ih =>
    intro g g' h
    cases hb : CheckConnection g c N with
    | none =>
      have he : connectRole g (c :: rest) N dir = none := by
        show (match CheckConnection g c N with
              | none => none
              | some b =>
                connectRole
                  (if b then addEdge g (if dir then (c, N) else (N, c)) else g)
                  rest N dir) = none
        rw [hb]
      rw [he] at h
      exact absurd h (by simp)
    | some b =>
      have he : connectRole g (c :: rest) N dir =
          connectRole (if b then addEdge g (if dir then (c, N) else (N, c)) else g)
            rest N dir := by
        show (match CheckConnection g c N with
              | none => none
              | some b =>
                connectRole
                  (if b then addEdge g (if dir then (c, N) else (N, c)) else g)
                  rest N dir) = _
        rw [hb]
      rw [he] at h
      obtain ⟨h1, h2⟩ := ih _ _ h
      constructor
      · rw [h1]; cases b <;> rfl
      · rw [h2]; cases b <;> rfl

theorem quadBody_some_shape (graph : Graph) (rxn_id : String) (rf pf : List Nat)
    (g' : Graph) (h : quadBody graph rxn_id rf pf = some g') :
    g'.nodes = dictInsert (dictInsert (dictInsert (dictInsert graph.nodes
      (graph.nodes.length + 1) { type := "rf", mid := rxn_id, c := some rf })
      (graph.nodes.length + 2) { type := "pf", mid := rxn_id, c := some pf })
      (graph.nodes.length + 3) { type := "rr", mid := rxn_id, c := some pf })
      (graph.nodes.length + 4) { type := "pr", mid := rxn_id, c := some rf } ∧
    g'.cmid2node = graph.cmid2node := by
  unfold quadBody at h
  cases h1 : connectRole (addNode graph (graph.nodes.length + 1)
      { type := "rf", mid := rxn_id, c := some rf }) rf
      (graph.nodes.length + 1) true with
  | none => rw [h1] at h; exact absurd h (by simp)
  | some g1 =>
    rw [h1] at h
    simp only [Option.some_bind] at h
    cases h2 : connectRole (addNode g1 (graph.nodes.length + 2)
        { type := "pf", mid := rxn_id, c := some pf }) pf
        (graph.nodes.length + 2) false with
    | none => rw [h2] at h; exact absurd h (by simp)
    | some g2 =>
      rw [h2] at h
      simp only [Option.some_bind] at h
      cases h3 : connectRole (addNode
          (addEdge g2 (graph.nodes.length + 1, graph.nodes.length + 2))
          (graph.nodes.length + 3)
          { type := "rr", mid := rxn_id, c := some pf }) pf
          (graph.nodes.length + 3) true with
      | none => rw [h3] at h; exact absurd h (by simp)
      | some g3 =>
        rw [h3] at h
        simp only [Option.some_bind] at h
        cases h4 : connectRole (addNode g3 (graph.nodes.length + 4)
            { type := "pr", mid := rxn_id, c := some rf }) rf
            (graph.nodes.length + 4) false with
        | none => rw [h4] at h; exact absurd h (by simp)
        | some g4 =>
          rw [h4] at h
          simp only [Option.map_some', Option.some.injEq] at h
          subst h
          obtain ⟨hn1, hc1⟩ := connectRole_some_shape _ _ _ _ _ h1
          obtain ⟨hn2, hc2⟩ := connectRole_some_shape _ _ _ _ _ h2
          obtain ⟨hn3, hc3⟩ := connectRole_some_shape _ _ _ _ _ h3
          obtain ⟨hn4, hc4⟩ := connectRole_some_shape _ _ _ _ _ h4
          constructor
          · calc (addEdge g4 (graph.nodes.length + 3, graph.nodes.length + 4)).nodes
                = g4.nodes := rfl
              _ = dictInsert g3.nodes (graph.nodes.length + 4)
                    { type := "pr", mid := rxn_id, c := some rf } := hn4
              _ = dictInsert (dictInsert g2.nodes (graph.nodes.length + 3)
                    { type := "rr", mid := rxn_id, c := some pf })
                    (graph.nodes.length + 4)
                    { type := "pr", mid := rxn_id, c := some rf } := by rw [hn3]; rfl
              _ = dictInsert (dictInsert (dictInsert g1.nodes
                    (graph.nodes.length + 2)
                    { type := "pf", mid := rxn_id, c := some pf })
                    (graph.nodes.length + 3)
                    { type := "rr", mid := rxn_id, c := some pf })
                    (graph.nodes.length + 4)
                    { type := "pr", mid := rxn_id, c := some rf } := by rw [hn2]; rfl
              _ = _ := by rw [hn1]; rfl
          · calc (addEdge g4 (graph.nodes.length + 3, graph.nodes.length + 4)).cmid2node
                = g4.cmid2node := rfl
              _ = g3.cmid2node := hc4
              _ = g2.cmid2node := hc3
              _ = g1.cmid2node := hc2
              _ = graph.cmid2node := hc1

theorem quadBody_GInv (graph : Graph) (rxn_id : String) (rf pf : List Nat)
    (g' : Graph) (h : quadBody graph rxn_id rf pf = some g') (hg : GInv graph) :
    GInv g' := by
  obtain ⟨hnodes, hcm⟩ := quadBody_some_shape graph rxn_id rf pf g' h
  obtain ⟨hdense, hbound, hWF, hinj⟩ := hg
  obtain ⟨hd1, hl1⟩ := dense_extend hdense
    { type := "rf", mid := rxn_id, c := some rf }
  obtain ⟨hd2, hl2⟩ := dense_extend hd1
    { type := "pf", mid := rxn_id, c := some pf }
  rw [hl1] at hd2 hl2
  obtain ⟨hd3, hl3⟩ := dense_extend hd2
    { type := "rr", mid := rxn_id, c := some pf }
  rw [hl2] at hd3 hl3
  obtain ⟨hd4, hl4⟩ := dense_extend hd3
    { type := "pr", mid := rxn_id, c := some rf }
  rw [hl3] at hd4 hl4
  have hd4' : ∀ p ∈ dictInsert (dictInsert (dictInsert (dictInsert graph.nodes
      (graph.nodes.length + 1) { type := "rf", mid := rxn_id, c := some rf })
      (graph.nodes.length + 2) { type := "pf", mid := rxn_id, c := some pf })
      (graph.nodes.length + 3) { type := "rr", mid := rxn_id, c := some pf })
      (graph.nodes.length + 4) { type := "pr", mid := rxn_id, c := some rf },
      p.1 < (dictInsert (dictInsert (dictInsert (dictInsert graph.nodes
      (graph.nodes.length + 1) { type := "rf", mid := rxn_id, c := some rf })
      (graph.nodes.length + 2) { type := "pf", mid := rxn_id, c := some pf })
      (graph.nodes.length + 3) { type := "rr", mid := rxn_id, c := some pf })
      (graph.nodes.length + 4)
      { type := "pr", mid := rxn_id, c := some rf }).length + 1 := hd4
  have hl4' : (dictInsert (dictInsert (dictInsert (dictInsert graph.nodes
      (graph.nodes.length + 1) { type := "rf", mid := rxn_id, c := some rf })
      (graph.nodes.length + 2) { type := "pf", mid := rxn_id, c := some pf })
      (graph.nodes.length + 3) { type := "rr", mid := rxn_id, c := some pf })
      (graph.nodes.length + 4)
      { type := "pr", mid := rxn_id, c := some rf }).length =
      graph.nodes.length + 4 := hl4
  refine ⟨?_, ?_, ?_, ?_⟩
  · rw [hnodes]
    exact hd4'
  · intro p hp
    rw [hcm] at hp
    rw [hnodes, hl4']
    exact le_trans (hbound p hp) (by omega)
  · intro p hp
    rw [hcm] at hp
    rw [hnodes]
    exact alookup_isSome_dictInsert _ _ (alookup_isSome_dictInsert _ _
      (alookup_isSome_dictInsert _ _ (alookup_isSome_dictInsert _ _ (hWF p hp))))
  · intro m1 m2 n h1 h2
    rw [hcm] at h1 h2
    exact hinj m1 m2 n h1 h2

theorem addQuadReactionNode_cases (graph : Graph) (rxn : Record) (g' : Graph)
    (h : AddQuadReactionNode graph rxn = some g') :
    g' = graph ∨ ∃ rxn_id rf pf, quadBody graph rxn_id rf pf = some g' := by
  unfold AddQuadReactionNode at h
  cases hid : rxn._id with
  | none =>
    rw [hid] at h
    have h' : some graph = some g' := h
    injection h' with h'
    exact Or.inl h'.symm
  | some rxn_id =>
    rw [hid] at h
    cases hrr : rxn.Reactants with
    | none =>
      rw [hrr] at h
      have h' : some graph = some g' := h
      injection h' with h'
      exact Or.inl h'.symm
    | some rs =>
      rw [hrr] at h
      cases hpp : rxn.Products with
      | none =>
        rw [hpp] at h
        have h' : some graph = some g' := h
        injection h' with h'
        exact Or.inl h'.symm
      | some ps =>
        rw [hpp] at h
        have h2 : (match resolveComps graph (listToSet (rs.map Prod.snd)) with
                   | none => some graph
                   | some rf_nodes =>
                     match resolveComps graph (listToSet (ps.map Prod.snd)) with
                     | none => some graph
                     | some pf_nodes =>
                       quadBody graph rxn_id (listToSet rf_nodes)
                         (listToSet pf_nodes)) = some g' := h
        cases hR : resolveComps graph (listToSet (rs.map Prod.snd)) with
        | none =>
          rw [hR] at h2
          have h' : some graph = some g' := h2
          injection h' with h'
          exact Or.inl h'.symm
        | some rfN =>
          rw [hR] at h2
          have h3 : (match resolveComps graph (listToSet (ps.map Prod.snd)) with
                     | none => some graph
                     | some pf_nodes =>
                       quadBody graph rxn_id (listToSet rfN)
                         (listToSet pf_nodes)) = some g' := h2
          cases hP : resolveComps graph (listToSet (ps.map Prod.snd)) with
          | none =>
            rw [hP] at h3
            have h' : some graph = some g' := h3
            injection h' with h'
            exact Or.inl h'.symm
          | some pfN =>
            rw [hP] at h3
            exact Or.inr ⟨rxn_id, listToSet rfN, listToSet pfN, h3⟩

theorem addQuadReactionNode_GInv (graph : Graph) (rxn : Record) (g' : Graph)
    (h : AddQuadReactionNode graph rxn = some g') (hg : GInv graph) :
    GInv g' := by
  rcases addQuadReactionNode_cases graph rxn g' h with he | ⟨i, rf, pf, hq⟩
  · rw [he]; exact hg
  · exact quadBody_GInv graph i rf pf g' hq hg

theorem addCompounds_GInv (cd : List (String × Record)) (s : List String) :
    ∀ (keys : List String) (g g' : Graph),
      addCompounds cd s keys g = some g' → GInv g → GInv g' := by
  intro keys
  induction keys with
  | nil =>
    intro g g' h hg
    have h' : some g = some g' := h
    injection h' with h'
    rw [← h']
    exact hg
  | cons k rest ih =>
    intro g g' h hg
    cases hk : alookup cd k with
    | none =>
      have he : addCompounds cd s (k :: rest) g = addCompounds cd s rest g := by
        show (match alookup cd k with
              | none => addCompounds cd s rest g
              | some comp =>
                match AddCompoundNode g comp s with
                | none => none
                | some g2 => addCompounds cd s rest g2) = _
        rw [hk]
      rw [he] at h
      exact ih g g' h hg
    | some comp =>
      have he : addCompounds cd s (k :: rest) g =
          (match AddCompoundNode g comp s with
           | none => none
           | some g2 => addCompounds cd s rest g2) := by
        show (match alookup cd k with
              | none => addCompounds cd s rest g
              | some comp =>
                match AddCompoundNode g comp s with
                | none => none
                | some g2 => addCompounds cd s rest g2) = _
        rw [hk]
      rw [he] at h
      cases hA : AddCompoundNode g comp s with
      | none => rw [hA] at h; exact absurd h (by simp)
      | some g2 =>
        rw [hA] at h
        have h' : addCompounds cd s rest g2 = some g' := h
        exact ih g2 g' h' (addCompoundNode_GInv g comp s g2 hA hg)

theorem addReactions_GInv (rd : List (String × Record)) :
    ∀ (keys : List String) (g g' : Graph),
      addReactions rd keys g = some g' → GInv g → GInv g' := by
  intro keys
  induction keys with
  | nil =>
    intro g g' h hg
    have h' : some g = some g' := h
    injection h' with h'
    rw [← h']
    exact hg
  | cons k rest ih =>
    intro g g' h hg
    cases hk : alookup rd k with
    | none =>
      have he : addReactions rd (k :: rest) g = addReactions rd rest g := by
        show (match alookup rd k with
              | none => addReactions rd rest g
              | some rxn =>
                match AddQuadReactionNode g rxn with
                | none => none
                | some g2 => addReactions rd rest g2) = _
        rw [hk]
      rw [he] at h
      exact ih g g' h hg
    | some rxn =>
      have he : addReactions rd (k :: rest) g =
          (match AddQuadReactionNode g rxn with
           | none => none
           | some g2 => addReactions rd rest g2) := by
        show (match alookup rd k with
              | none => addReactions rd rest g
              | some rxn =>
                match AddQuadReactionNode g rxn with
                | none => none
                | some g2 => addReactions rd rest g2) = _
        rw [hk]
      rw [he] at h
      cases hA : AddQuadReactionNode g rxn with
      | none => rw [hA] at h; exact absurd h (by simp)
      | some g2 =>
        rw [hA] at h
        have h' : addReactions rd rest g2 = some g' := h
        exact ih g2 g' h' (addQuadReactionNode_GInv g rxn g2 hA hg)

theorem GInv_empty (md : List (String × Record)) :
    GInv { nodes := [], edges := [], cmid2node := [], mine_data := md } := by
  refine ⟨?_, ?_, ?_, ?_⟩
  · intro p hp; simp at hp
  · intro p hp; simp at hp
  · intro p hp; simp at hp
  · intro m1 m2 n h1 _
    simp [alookup] at h1

/-- C6: on every graph `ConstructNetwork` returns, the `cmid2node` index is
injective — two distinct compound ids never map to the same node number. -/
theorem constructNetwork_cmid2node_injective (cd rd : List (String × Record))
    (s e : List String) (g : Graph) (m1 m2 : String) (n : Nat)
    (h : ConstructNetwork cd rd s e = some g)
    (h1 : alookup g.cmid2node m1 = some n)
    (h2 : alookup g.cmid2node m2 = some n) : m1 = m2 := by
  have h' : (match addCompounds cd (ExpandStartCompIds cd (listToSet s) e)
      (sortStrings (dictKeys cd))
      { nodes := [], edges := [], cmid2node := [], mine_data := mergeDicts cd rd } with
    | none => none
    | some g1 => addReactions rd (sortStrings (dictKeys rd)) g1) = some g := h
  cases hC : addCompounds cd (ExpandStartCompIds cd (listToSet s) e)
      (sortStrings (dictKeys cd))
      { nodes := [], edges := [], cmid2node := [],
        mine_data := mergeDicts cd rd } with
  | none => rw [hC] at h'; exact absurd h' (by simp)
  | some g1 =>
    rw [hC] at h'
    have hR : addReactions rd (sortStrings (dictKeys rd)) g1 = some g := h'
    have hg1 : GInv g1 := addCompounds_GInv _ _ _ _ _ hC (GInv_empty _)
    have hg : GInv g := addReactions_GInv _ _ _ _ hR hg1
    exact hg.2.2.2 m1 m2 n h1 h2

/-- Fixture dictionary for the C6 witness. -/
def fixtureCompDictC6 : List (String × Record) := [("A", { _id := some "A" })]

/-- The graph `ConstructNetwork` builds from the C6 fixture. -/
def fixtureGraphC6 : Graph :=
  { nodes := [(1, { type := "c", mid := "A", start := some false, c := none })],
    edges := [], cmid2node := [("A", 1)],
    mine_data := [("A", { _id := some "A" })] }

/-- Witness for C6 at a concrete input. -/
theorem constructNetwork_cmid2node_injective_witness : "A" = "A" :=
  constructNetwork_cmid2node_injective fixtureCompDictC6 [] [] []
    fixtureGraphC6 "A" "A" 1 (by decide) rfl rfl

/-! ## Claim C5: monotone carbon-limit exclusion in `GetRawNetwork` -/

/-- The database collaborator contract: a record fetched under an id carries
that id as its own `_id` (MINE records are keyed by `_id`, and the source
reads `comp['_id']` / `rxn['_id']` back from every fetched record). -/
def HonestDB (con : MineDB) : Prop :=
  (∀ i c, con.getComp i = some c → c._id = some i) ∧
  (∀ i r, con.getRxn i = some r → r._id = some i)

/-- The exclusion invariant of one expansion run: every excluded compound id
is cached with a carbon-exceeding record and is not a `comp_dict` key, and
every excluded reaction id is not a `rxn_dict` key. -/
def ExclusionInv (Cl : Nat) (st : ExpandState) : Prop :=
  (∀ x ∈ st.comp_exceeding_C_limit,
    ∃ c, alookup st.comp_cache x = some c ∧ LimitCarbon c Cl = true) ∧
  (∀ x ∈ st.comp_exceeding_C_limit, alookup st.comp_dict x = none) ∧
  (∀ x ∈ st.rxn_exceeding_C_limit, alookup st.rxn_dict x = none)

/-- What the reaction-candidate filter guarantees for every collected id. -/
def RxnCandOK (st : ExpandState) (q : String) : Prop :=
  alookup st.rxn_dict q = none ∧ q ∉ st.rxn_exceeding_C_limit

/-- What the compound-candidate filter guarantees for every collected id. -/
def CompCandOK (st : ExpandState) (q : String) : Prop :=
  alookup st.comp_dict q = none ∧ alookup st.comp_cache q = none ∧
    q ∉ st.comp_exceeding_C_limit

theorem updateCache_preserve {key : String} :
    ∀ (l : List (Option Record)) (cache : List (String × Record)),
      (∀ c i, some c ∈ l → c._id = some i → i ≠ key) →
      alookup (updateCache cache l) key = alookup cache key := by
  intro l
  induction l with
  | nil => intro cache _; rfl
  | cons o rest ih =>
    intro cache hfresh
    cases o with
    | none =>
      exact ih cache (fun c i hc => hfresh c i (List.mem_cons_of_mem _ hc))
    | some comp =>
      cases hcid : comp._id with
      | none =>
        have he : updateCache cache (some comp :: rest) =
            updateCache cache rest := by
          show (match comp._id with
                | none => updateCache cache rest
                | some comp_id =>
                  updateCache (dictInsert cache comp_id comp) rest) = _
          rw [hcid]
        rw [he]
        exact ih cache (fun c i hc => hfresh c i (List.mem_cons_of_mem _ hc))
      | some comp_id =>
        have he : updateCache cache (some comp :: rest) =
            updateCache (dictInsert cache comp_id comp) rest := by
          show (match comp._id with
                | none => updateCache cache rest
                | some comp_id =>
                  updateCache (dictInsert cache comp_id comp) rest) = _
          rw [hcid]
        rw [he]
        have hne : key ≠ comp_id :=
          Ne.symm (hfresh comp comp_id (List.mem_cons_self _ _) hcid)
        rw [ih (dictInsert cache comp_id comp)
          (fun c i hc => hfresh c i (List.mem_cons_of_mem _ hc))]
        exact alookup_dictInsert_ne cache comp hne

theorem setInsert_nodup {κ : Type} [DecidableEq κ] {s : List κ} (h : s.Nodup)
    (x : κ) : (setInsert s x).Nodup := by
  unfold setInsert
  by_cases hm : x ∈ s
  · rw [if_pos hm]; exact h
  · rw [if_neg hm]
    refine List.nodup_append.2 ⟨h, List.nodup_singleton x, ?_⟩
    intro a ha hax
    rw [List.mem_singleton] at hax
    subst hax
    exact hm ha

theorem foldl_pres_mem {κ κ2 : Type} {P : κ → Prop}
    {step : List κ → κ2 → List κ}
    (hstep : ∀ acc k x, (∀ y ∈ acc, P y) → x ∈ step acc k → P x) :
    ∀ (l : List κ2) (acc : List κ), (∀ x ∈ acc, P x) →
      ∀ x ∈ l.foldl step acc, P x := by
  intro l
  induction l with
  | nil => intro acc hacc x hx; exact hacc x hx
  | cons k rest ih =>
    intro acc hacc x hx
    exact ih (step acc k) (fun y hy => hstep acc k y hacc hy) x hx

theorem foldl_pres_nodup {κ κ2 : Type} {step : List κ → κ2 → List κ}
    (hstep : ∀ acc k, acc.Nodup → (step acc k).Nodup) :
    ∀ (l : List κ2) (acc : List κ), acc.Nodup → (l.foldl step acc).Nodup := by
  intro l
  induction l with
  | nil => intro acc h; exact h
  | cons k rest ih =>
    intro acc h
    exact ih (step acc k) (hstep acc k h)

theorem collectRxnStep_cases (st : ExpandState) (acc : List String)
    (q : String) :
    collectRxnStep st acc q = acc ∨
      (collectRxnStep st acc q = setInsert acc q ∧ RxnCandOK st q) := by
  unfold collectRxnStep
  by_cases h : (alookup st.rxn_dict q).isSome = true ∨
      q ∈ st.rxn_exceeding_C_limit
  · rw [if_pos h]; exact Or.inl rfl
  · rw [if_neg h]
    push_neg at h
    exact Or.inr ⟨rfl, isSome_false_eq_none h.1, h.2⟩

theorem collectCompStep_cases (st : ExpandState) (acc : List String)
    (q : String) :
    collectCompStep st acc q = acc ∨
      (collectCompStep st acc q = setInsert acc q ∧ CompCandOK st q) := by
  unfold collectCompStep
  by_cases h : (alookup st.comp_dict q).isSome = true ∨
      (alookup st.comp_cache q).isSome = true ∨
      q ∈ st.comp_exceeding_C_limit
  · rw [if_pos h]; exact Or.inl rfl
  · rw [if_neg h]
    push_neg at h
    exact Or.inr ⟨rfl, isSome_false_eq_none h.1,
      isSome_false_eq_none h.2.1, h.2.2⟩

theorem collectRxnStep_pres (st : ExpandState) :
    ∀ (acc : List String) (k x : String), (∀ y ∈ acc, RxnCandOK st y) →
      x ∈ collectRxnStep st acc k → RxnCandOK st x := by
  intro acc k x hacc hx
  rcases collectRxnStep_cases st acc k with he | ⟨he, hok⟩
  · rw [he] at hx; exact hacc x hx
  · rw [he] at hx
    rcases mem_setInsert.1 hx with rfl | hx'
    · exact hok
    · exact hacc x hx'

theorem collectCompStep_pres (st : ExpandState) :
    ∀ (acc : List String) (k x : String), (∀ y ∈ acc, CompCandOK st y) →
      x ∈ collectCompStep st acc k → CompCandOK st x := by
  intro acc k x hacc hx
  rcases collectCompStep_cases st acc k with he | ⟨he, hok⟩
  · rw [he] at hx; exact hacc x hx
  · rw [he] at hx
    rcases mem_setInsert.1 hx with rfl | hx'
    · exact hok
    · exact hacc x hx'

theorem collectRxnFromComp_pres (st : ExpandState) :
    ∀ (acc : List String) (comp_id x : String),
      (∀ y ∈ acc, RxnCandOK st y) →
      x ∈ collectRxnFromComp st acc comp_id → RxnCandOK st x := by
  intro acc comp_id x hacc hx
  unfold collectRxnFromComp at hx
  cases halo : alookup st.comp_dict comp_id with
  | none => rw [halo] at hx; exact hacc x hx
  | some comp =>
    rw [halo] at hx
    exact foldl_pres_mem (collectRxnStep_pres st) _ acc hacc x hx

theorem collectCompFromRxn_pres (st : ExpandState) :
    ∀ (acc : List String) (orxn : Option Record) (x : String),
      (∀ y ∈ acc, CompCandOK st y) →
      x ∈ collectCompFromRxn st acc orxn → CompCandOK st x := by
  intro acc orxn x hacc hx
  cases orxn with
  | none => exact hacc x hx
  | some rxn =>
    exact foldl_pres_mem (collectCompStep_pres st) _ acc hacc x hx

theorem collectRxnIds_mem (st : ExpandState) (un : List String) :
    ∀ q ∈ collectRxnIds st un, RxnCandOK st q := by
  intro q hq
  unfold collectRxnIds at hq
  exact foldl_pres_mem
    (fun acc k x hacc hx => collectRxnFromComp_pres st acc k x hacc hx)
    un [] (fun x hx => absurd hx (List.not_mem_nil x)) q hq

theorem collectCompIds_mem (st : ExpandState) (rxns : List (Option Record)) :
    ∀ q ∈ collectCompIds st rxns, CompCandOK st q := by
  intro q hq
  unfold collectCompIds at hq
  exact foldl_pres_mem
    (fun acc k x hacc hx => collectCompFromRxn_pres st acc k x hacc hx)
    rxns [] (fun x hx => absurd hx (List.not_mem_nil x)) q hq

theorem collectRxnStep_nodup (st : ExpandState) :
    ∀ (acc : List String) (k : String), acc.Nodup →
      (collectRxnStep st acc k).Nodup := by
  intro acc k h
  rcases collectRxnStep_cases st acc k with he | ⟨he, _⟩
  · rw [he]; exact h
  · rw [he]; exact setInsert_nodup h k

theorem collectRxnFromComp_nodup (st : ExpandState) :
    ∀ (acc : List String) (comp_id : String), acc.Nodup →
      (collectRxnFromComp st acc comp_id).Nodup := by
  intro acc comp_id h
  unfold collectRxnFromComp
  cases halo : alookup st.comp_dict comp_id with
  | none => exact h
  | some comp => exact foldl_pres_nodup (collectRxnStep_nodup st) _ acc h

theorem collectRxnIds_nodup (st : ExpandState) (un : List String) :
    (collectRxnIds st un).Nodup := by
  unfold collectRxnIds
  exact foldl_pres_nodup (collectRxnFromComp_nodup st) un [] List.nodup_nil

theorem walkRxnComps_inr (Cl : Nat)
    (comp_dict comp_cache : List (String × Record)) :
    ∀ (l : List String) (acc : List (String × Record)) (cid : String),
      walkRxnComps Cl comp_dict comp_cache l acc = Sum.inr cid →
      alookup comp_dict cid = none ∧
        ∃ c, alookup comp_cache cid = some c ∧ LimitCarbon c Cl = true := by
  intro l
  induction l with
  | nil =>
    intro acc cid h
    exact absurd h (by simp [walkRxnComps])
  | cons x rest ih =>
    intro acc cid h
    by_cases hd : (alookup comp_dict x).isSome
    · have he : walkRxnComps Cl comp_dict comp_cache (x :: rest) acc =
          walkRxnComps Cl comp_dict comp_cache rest acc := by
        show (if (alookup comp_dict x).isSome then
                walkRxnComps Cl comp_dict comp_cache rest acc
              else match alookup comp_cache x with
                | none => walkRxnComps Cl comp_dict comp_cache rest acc
                | some comp =>
                  if LimitCarbon comp Cl then Sum.inr x
                  else walkRxnComps Cl comp_dict comp_cache rest
                    (if (alookup acc x).isSome then acc
                     else acc ++ [(x, comp)])) = _
        rw [if_pos hd]
      rw [he] at h
      exact ih acc cid h
    · have he0 : walkRxnComps Cl comp_dict comp_cache (x :: rest) acc =
          (match alookup comp_cache x with
           | none => walkRxnComps Cl comp_dict comp_cache rest acc
           | some comp =>
             if LimitCarbon comp Cl then Sum.inr x
             else walkRxnComps Cl comp_dict comp_cache rest
               (if (alookup acc x).isSome then acc
                else acc ++ [(x, comp)])) := by
        show (if (alookup comp_dict x).isSome then
                walkRxnComps Cl comp_dict comp_cache rest acc
              else match alookup comp_cache x with
                | none => walkRxnComps Cl comp_dict comp_cache rest acc
                | some comp =>
                  if LimitCarbon comp Cl then Sum.inr x
                  else walkRxnComps Cl comp_dict comp_cache rest
                    (if (alookup acc x).isSome then acc
                     else acc ++ [(x, comp)])) = _
        rw [if_neg hd]
      cases hc : alookup comp_cache x with
      | none =>
        rw [he0, hc] at h
        exact ih acc cid h
      | some comp =>
        rw [he0, hc] at h
        have h' : (if LimitCarbon comp Cl then Sum.inr x
            else walkRxnComps Cl comp_dict comp_cache rest
              (if (alookup acc x).isSome then acc
               else acc ++ [(x, comp)])) = Sum.inr cid := h
        by_cases hl : LimitCarbon comp Cl
        · rw [if_pos hl] at h'
          injection h' with hx
          subst hx
          exact ⟨isSome_false_eq_none hd, comp, hc, hl⟩
        · rw [if_neg hl] at h'
          exact ih _ cid h'

theorem walkRxnComps_inl (Cl : Nat)
    (comp_dict comp_cache : List (String × Record)) :
    ∀ (l : List String) (acc pairs : List (String × Record)),
      walkRxnComps Cl comp_dict comp_cache l acc = Sum.inl pairs →
      ∀ p ∈ pairs, p ∈ acc ∨
        (alookup comp_cache p.1 = some p.2 ∧ LimitCarbon p.2 Cl = false) := by
  intro l
  induction l with
  | nil =>
    intro acc pairs h p hp
    have h' : Sum.inl (β := String) acc = Sum.inl pairs := h
    injection h' with h1
    subst h1
    exact Or.inl hp
  | cons x rest ih =>
    intro acc pairs h p hp
    by_cases hd : (alookup comp_dict x).isSome
    · have he : walkRxnComps Cl comp_dict comp_cache (x :: rest) acc =
          walkRxnComps Cl comp_dict comp_cache rest acc := by
        show (if (alookup comp_dict x).isSome then
                walkRxnComps Cl comp_dict comp_cache rest acc
              else match alookup comp_cache x with
                | none => walkRxnComps Cl comp_dict comp_cache rest acc
                | some comp =>
                  if LimitCarbon comp Cl then Sum.inr x
                  else walkRxnComps Cl comp_dict comp_cache rest
                    (if (alookup acc x).isSome then acc
                     else acc ++ [(x, comp)])) = _
        rw [if_pos hd]
      rw [he] at h
      exact ih acc pairs h p hp
    · have he0 : walkRxnComps Cl comp_dict comp_cache (x :: rest) acc =
          (match alookup comp_cache x with
           | none => walkRxnComps Cl comp_dict comp_cache rest acc
           | some comp =>
             if LimitCarbon comp Cl then Sum.inr x
             else walkRxnComps Cl comp_dict comp_cache rest
               (if (alookup acc x).isSome then acc
                else acc ++ [(x, comp)])) := by
        show (if (alookup comp_dict x).isSome then
                walkRxnComps Cl comp_dict comp_cache rest acc
              else match alookup comp_cache x with
                | none => walkRxnComps Cl comp_dict comp_cache rest acc
                | some comp =>
                  if LimitCarbon comp Cl then Sum.inr x
                  else walkRxnComps Cl comp_dict comp_cache rest
                    (if (alookup acc x).isSome then acc
                     else acc ++ [(x, comp)])) = _
        rw [if_neg hd]
      cases hc : alookup comp_cache x with
      | none =>
        rw [he0, hc] at h
        exact ih acc pairs h p hp
      | some comp =>
        rw [he0, hc] at h
        have h' : (if LimitCarbon comp Cl then Sum.inr x
            else walkRxnComps Cl comp_dict comp_cache rest
              (if (alookup acc x).isSome then acc
               else acc ++ [(x, comp)])) = Sum.inl pairs := h
        by_cases hl : LimitCarbon comp Cl
        · rw [if_pos hl] at h'
          exact absurd h' (by simp)
        · rw [if_neg hl] at h'
          rcases ih _ pairs h' p hp with hmem | hnew
          · by_cases ha : (alookup acc x).isSome
            · rw [if_pos ha] at hmem
              exact Or.inl hmem
            · rw [if_neg ha] at hmem
              rcases List.mem_append.1 hmem with h1 | h2
              · exact Or.inl h1
              · rw [List.mem_singleton] at h2
                subst h2
                exact Or.inr ⟨hc, bool_eq_false hl⟩
          · exact Or.inr hnew

theorem harvestComps_fields (cl : Nat) :
    ∀ (pairs : List (String × Record)) (st : ExpandState),
      (harvestComps cl pairs st).1.comp_cache = st.comp_cache ∧
      (harvestComps cl pairs st).1.rxn_dict = st.rxn_dict ∧
      (harvestComps cl pairs st).1.comp_exceeding_C_limit =
        st.comp_exceeding_C_limit ∧
      (harvestComps cl pairs st).1.rxn_exceeding_C_limit =
        st.rxn_exceeding_C_limit := by
  intro pairs
  induction pairs with
  | nil => intro st; exact ⟨rfl, rfl, rfl, rfl⟩
  | cons p rest ih =>
    intro st
    obtain ⟨cid, comp⟩ := p
    by_cases hc : st.comps + 1 ≥ cl
    · have he : harvestComps cl ((cid, comp) :: rest) st =
          ({ st with comp_dict := dictInsert st.comp_dict cid comp,
                     comps := st.comps + 1 }, true) := by
        show (if st.comps + 1 ≥ cl then
                ({ st with comp_dict := dictInsert st.comp_dict cid comp,
                           comps := st.comps + 1 }, true)
              else harvestComps cl rest
                { st with comp_dict := dictInsert st.comp_dict cid comp,
                          comps := st.comps + 1 }) = _
        rw [if_pos hc]
      rw [he]
      exact ⟨rfl, rfl, rfl, rfl⟩
    · have he : harvestComps cl ((cid, comp) :: rest) st =
          harvestComps cl rest
            { st with comp_dict := dictInsert st.comp_dict cid comp,
                      comps := st.comps + 1 } := by
        show (if st.comps + 1 ≥ cl then
                ({ st with comp_dict := dictInsert st.comp_dict cid comp,
                           comps := st.comps + 1 }, true)
              else harvestComps cl rest
                { st with comp_dict := dictInsert st.comp_dict cid comp,
                          comps := st.comps + 1 }) = _
        rw [if_neg hc]
      rw [he]
      exact ih _

theorem harvestComps_ExclusionInv (cl Cl : Nat) :
    ∀ (pairs : List (String × Record)) (st : ExpandState),
      ExclusionInv Cl st →
      (∀ p ∈ pairs,
        alookup st.comp_cache p.1 = some p.2 ∧ LimitCarbon p.2 Cl = false) →
      ExclusionInv Cl (harvestComps cl pairs st).1 := by
  intro pairs
  induction pairs with
  | nil => intro st h _; exact h
  | cons p rest ih =>
    intro st h hp
    obtain ⟨cid, comp⟩ := p
    have hcache : alookup st.comp_cache cid = some comp ∧
        LimitCarbon comp Cl = false :=
      hp (cid, comp) (List.mem_cons_self _ _)
    have hinv' : ExclusionInv Cl
        { st with comp_dict := dictInsert st.comp_dict cid comp,
                  comps := st.comps + 1 } := by
      refine ⟨h.1, ?_, h.2.2⟩
      intro x hx
      obtain ⟨c, hcx, hlx⟩ := h.1 x hx
      have hne : x ≠ cid := by
        intro hxe
        rw [hxe] at hcx
        rw [hcache.1] at hcx
        have hcc : comp = c := by injection hcx
        rw [← hcc] at hlx
        rw [hcache.2] at hlx
        exact Bool.noConfusion hlx
      show alookup (dictInsert st.comp_dict cid comp) x = none
      rw [alookup_dictInsert_ne st.comp_dict comp hne]
      exact h.2.1 x hx
    by_cases hc : st.comps + 1 ≥ cl
    · have he : harvestComps cl ((cid, comp) :: rest) st =
          ({ st with comp_dict := dictInsert st.comp_dict cid comp,
                     comps := st.comps + 1 }, true) := by
        show (if st.comps + 1 ≥ cl then
                ({ st with comp_dict := dictInsert st.comp_dict cid comp,
                           comps := st.comps + 1 }, true)
              else harvestComps cl rest
                { st with comp_dict := dictInsert st.comp_dict cid comp,
                          comps := st.comps + 1 }) = _
        rw [if_pos hc]
      rw [he]
      exact hinv'
    · have he : harvestComps cl ((cid, comp) :: rest) st =
          harvestComps cl rest
            { st with comp_dict := dictInsert st.comp_dict cid comp,
                      comps := st.comps + 1 } := by
        show (if st.comps + 1 ≥ cl then
                ({ st with comp_dict := dictInsert st.comp_dict cid comp,
                           comps := st.comps + 1 }, true)
              else harvestComps cl rest
                { st with comp_dict := dictInsert st.comp_dict cid comp,
                          comps := st.comps + 1 }) = _
        rw [if_neg hc]
      rw [he]
      refine ih _ hinv' ?_
      intro q hq
      exact hp q (List.mem_cons_of_mem _ hq)

theorem processRxn_exclusion (Cl cl : Nat) (st : ExpandState) (rxn : Record)
    (hinv : ExclusionInv Cl st)
    (hid : ∀ i, rxn._id = some i → alookup st.rxn_dict i = none) :
    ExclusionInv Cl (processRxn Cl cl st rxn).1 := by
  cases hI : rxn._id with
  | none =>
    have he : processRxn Cl cl st rxn = (st, false) := by
      unfold processRxn
      rw [hI]
    rw [he]
    exact hinv
  | some rxn_id =>
    have he0 : processRxn Cl cl st rxn =
        (match walkRxnComps Cl st.comp_dict st.comp_cache
            (ExtractReactionCompIds rxn) [] with
         | Sum.inr cid =>
           ({ st with
               comp_exceeding_C_limit := setInsert st.comp_exceeding_C_limit cid,
               rxn_exceeding_C_limit := setInsert st.rxn_exceeding_C_limit rxn_id },
            false)
         | Sum.inl new_rxn_comp_ids =>
           if rxn_id ∈ st.rxn_exceeding_C_limit then (st, false)
           else
             harvestComps cl new_rxn_comp_ids
               { st with rxn_dict := dictInsert st.rxn_dict rxn_id rxn }) := by
      unfold processRxn
      rw [hI]
    cases hw : walkRxnComps Cl st.comp_dict st.comp_cache
        (ExtractReactionCompIds rxn) [] with
    | inr cid =>
      rw [he0, hw]
      obtain ⟨hdnone, c, hcsome, hctrue⟩ :=
        walkRxnComps_inr Cl st.comp_dict st.comp_cache _ [] cid hw
      refine ⟨?_, ?_, ?_⟩
      · intro x hx
        have hx' : x ∈ setInsert st.comp_exceeding_C_limit cid := hx
        rcases mem_setInsert.1 hx' with rfl | hxm
        · exact ⟨c, hcsome, hctrue⟩
        · exact hinv.1 x hxm
      · intro x hx
        have hx' : x ∈ setInsert st.comp_exceeding_C_limit cid := hx
        rcases mem_setInsert.1 hx' with rfl | hxm
        · exact hdnone
        · exact hinv.2.1 x hxm
      · intro x hx
        have hx' : x ∈ setInsert st.rxn_exceeding_C_limit rxn_id := hx
        rcases mem_setInsert.1 hx' with rfl | hxm
        · exact hid x hI
        · exact hinv.2.2 x hxm
    | inl new_ids =>
      rw [he0, hw]
      show ExclusionInv Cl
        (if rxn_id ∈ st.rxn_exceeding_C_limit then (st, false)
         else harvestComps cl new_ids
           { st with rxn_dict := dictInsert st.rxn_dict rxn_id rxn }).1
      by_cases hm : rxn_id ∈ st.rxn_exceeding_C_limit
      · rw [if_pos hm]
        exact hinv
      · rw [if_neg hm]
        have hpairs := walkRxnComps_inl Cl st.comp_dict st.comp_cache _ []
          new_ids hw
        have hinv' : ExclusionInv Cl
            { st with rxn_dict := dictInsert st.rxn_dict rxn_id rxn } := by
          refine ⟨hinv.1, hinv.2.1, ?_⟩
          intro x hx
          have hne : x ≠ rxn_id := fun hxe => hm (hxe ▸ hx)
          show alookup (dictInsert st.rxn_dict rxn_id rxn) x = none
          rw [alookup_dictInsert_ne st.rxn_dict rxn hne]
          exact hinv.2.2 x hx
        refine harvestComps_ExclusionInv cl Cl new_ids _ hinv' ?_
        intro p hp
        rcases hpairs p hp with hmem | hnew
        · exact absurd hmem (List.not_mem_nil p)
        · exact hnew

theorem processRxn_rxn_dict (Cl cl : Nat) (st : ExpandState) (rxn : Record)
    (j : String) (hj : ∀ i, rxn._id = some i → j ≠ i) :
    alookup (processRxn Cl cl st rxn).1.rxn_dict j = alookup st.rxn_dict j := by
  cases hI : rxn._id with
  | none =>
    have he : processRxn Cl cl st rxn = (st, false) := by
      unfold processRxn
      rw [hI]
    rw [he]
  | some rxn_id =>
    have he0 : processRxn Cl cl st rxn =
        (match walkRxnComps Cl st.comp_dict st.comp_cache
            (ExtractReactionCompIds rxn) [] with
         | Sum.inr cid =>
           ({ st with
               comp_exceeding_C_limit := setInsert st.comp_exceeding_C_limit cid,
               rxn_exceeding_C_limit := setInsert st.rxn_exceeding_C_limit rxn_id },
            false)
         | Sum.inl new_rxn_comp_ids =>
           if rxn_id ∈ st.rxn_exceeding_C_limit then (st, false)
           else
             harvestComps cl new_rxn_comp_ids
               { st with rxn_dict := dictInsert st.rxn_dict rxn_id rxn }) := by
      unfold processRxn
      rw [hI]
    cases hw : walkRxnComps Cl st.comp_dict st.comp_cache
        (ExtractReactionCompIds rxn) [] with
    | inr cid =>
      rw [he0, hw]
    | inl new_ids =>
      rw [he0, hw]
      show alookup
        (if rxn_id ∈ st.rxn_exceeding_C_limit then (st, false)
         else harvestComps cl new_ids
           { st with rxn_dict := dictInsert st.rxn_dict rxn_id rxn }).1.rxn_dict
        j = alookup st.rxn_dict j
      by_cases hm : rxn_id ∈ st.rxn_exceeding_C_limit
      · rw [if_pos hm]
      · rw [if_neg hm]
        rw [(harvestComps_fields cl new_ids _).2.1]
        show alookup (dictInsert st.rxn_dict rxn_id rxn) j = alookup st.rxn_dict j
        exact alookup_dictInsert_ne st.rxn_dict rxn (hj rxn_id hI)

theorem processRxns_exclusion (Cl cl : Nat) :
    ∀ (l : List (Option Record)) (st : ExpandState),
      ExclusionInv Cl st →
      (∀ r i, some r ∈ l → r._id = some i → alookup st.rxn_dict i = none) →
      l.Pairwise (fun a b => ∀ ra rb ia ib, a = some ra → b = some rb →
        ra._id = some ia → rb._id = some ib → ia ≠ ib) →
      ExclusionInv Cl (processRxns Cl cl l st).1 := by
  intro l
  induction l with
  | nil => intro st h _ _; exact h
  | cons o rest ih =>
    intro st h hids hpw
    cases o with
    | none =>
      exact ih st h (fun r i hr => hids r i (List.mem_cons_of_mem _ hr))
        (List.pairwise_cons.1 hpw).2
    | some rxn =>
      have hid1 : ∀ i, rxn._id = some i → alookup st.rxn_dict i = none :=
        fun i hi => hids rxn i (List.mem_cons_self _ _) hi
      have hp := processRxn_exclusion Cl cl st rxn h hid1
      by_cases hb : (processRxn Cl cl st rxn).2 = true
      · have he : processRxns Cl cl (some rxn :: rest) st =
            processRxn Cl cl st rxn := by
          show (if (processRxn Cl cl st rxn).2 = true then processRxn Cl cl st rxn
                else processRxns Cl cl rest (processRxn Cl cl st rxn).1) = _
          rw [if_pos hb]
        rw [he]
        exact hp
      · have he : processRxns Cl cl (some rxn :: rest) st =
            processRxns Cl cl rest (processRxn Cl cl st rxn).1 := by
          show (if (processRxn Cl cl st rxn).2 = true then processRxn Cl cl st rxn
                else processRxns Cl cl rest (processRxn Cl cl st rxn).1) = _
          rw [if_neg hb]
        rw [he]
        refine ih _ hp ?_ (List.pairwise_cons.1 hpw).2
        intro r i hr hri
        have hneq : ∀ i0, rxn._id = some i0 → i ≠ i0 := by
          intro i0 hi0
          exact Ne.symm
            ((List.pairwise_cons.1 hpw).1 (some r) hr rxn r i0 i rfl rfl hi0 hri)
        rw [processRxn_rxn_dict Cl cl st rxn i hneq]
        exact hids r i (List.mem_cons_of_mem _ hr) hri

theorem batch_ids_none (con : MineDB) (hcon : HonestDB con)
    (d : List (String × Record)) (qids : List String)
    (hq : ∀ q ∈ qids, alookup d q = none) :
    ∀ r i, some r ∈ ThreadedGetRxns con qids → r._id = some i →
      alookup d i = none := by
  intro r i hr hri
  unfold ThreadedGetRxns at hr
  rcases List.mem_map.1 hr with ⟨q, hqmem, hqr⟩
  have hid := hcon.2 q r hqr
  rw [hri] at hid
  have hiq : i = q := by injection hid
  rw [hiq]
  exact hq q hqmem

theorem batch_pairwise (con : MineDB) (hcon : HonestDB con) :
    ∀ (qids : List String), qids.Nodup →
      (ThreadedGetRxns con qids).Pairwise (fun a b => ∀ ra rb ia ib,
        a = some ra → b = some rb → ra._id = some ia → rb._id = some ib →
        ia ≠ ib) := by
  intro qids
  induction qids with
  | nil => intro _; exact List.Pairwise.nil
  | cons q rest ih =>
    intro hnd
    rw [List.nodup_cons] at hnd
    show (con.getRxn q :: ThreadedGetRxns con rest).Pairwise _
    refine List.pairwise_cons.2 ⟨?_, ih hnd.2⟩
    intro b hb ra rb ia ib ha hbr hia hib hcontra
    have h1 : ra._id = some q := hcon.2 q ra ha
    rw [hia] at h1
    have hiaq : ia = q := by injection h1
    rw [hbr] at hb
    rcases List.mem_map.1 hb with ⟨q2, hq2mem, hq2⟩
    have h2 : rb._id = some q2 := hcon.2 q2 rb hq2
    rw [hib] at h2
    have hibq : ib = q2 := by injection h2
    have hqq2 : q = q2 := by rw [← hiaq, hcontra, hibq]
    rw [hqq2] at hnd
    exact hnd.1 hq2mem

theorem updateCache_comp_exclusion (con : MineDB) (hcon : HonestDB con)
    (Cl : Nat) (st : ExpandState) (hinv : ExclusionInv Cl st)
    (rxns : List (Option Record)) :
    ExclusionInv Cl
      { st with
        comp_cache := updateCache st.comp_cache
          (ThreadedGetComps con (collectCompIds st rxns)) } := by
  refine ⟨?_, hinv.2.1, hinv.2.2⟩
  intro x hx
  obtain ⟨c, hcx, hlx⟩ := hinv.1 x hx
  refine ⟨c, ?_, hlx⟩
  show alookup
    (updateCache st.comp_cache (ThreadedGetComps con (collectCompIds st rxns))) x
    = some c
  rw [updateCache_preserve]
  · exact hcx
  · intro c2 i hc2 hi2 hieq
    unfold ThreadedGetComps at hc2
    rcases List.mem_map.1 hc2 with ⟨q, hqmem, hq⟩
    have hidq : c2._id = some q := hcon.1 q c2 hq
    rw [hi2] at hidq
    have hiq : i = q := by injection hidq
    have hqx : q = x := by rw [← hiq]; exact hieq
    have hqok := collectCompIds_mem st rxns q hqmem
    rw [hqx] at hqok
    rw [hqok.2.1] at hcx
    exact Option.noConfusion hcx

theorem stepTail_exclusion (Cl cl : Nat) (rxns : List (Option Record))
    (st1 : ExpandState) (un : List String)
    (h1 : ExclusionInv Cl st1)
    (hids : ∀ r i, some r ∈ rxns → r._id = some i →
      alookup st1.rxn_dict i = none)
    (hpw : rxns.Pairwise (fun a b => ∀ ra rb ia ib, a = some ra → b = some rb →
      ra._id = some ia → rb._id = some ib → ia ≠ ib)) :
    ExclusionInv Cl
      (if (processRxns Cl cl rxns st1).2 then processRxns Cl cl rxns st1
       else ({ (processRxns Cl cl rxns st1).1 with
               extended_comp_ids :=
                 (processRxns Cl cl rxns st1).1.extended_comp_ids ++ un },
             false)).1 := by
  have hp := processRxns_exclusion Cl cl rxns st1 h1 hids hpw
  by_cases hb : (processRxns Cl cl rxns st1).2 = true
  · rw [if_pos hb]
    exact hp
  · rw [if_neg hb]
    exact hp

theorem expandStep_exclusion (con : MineDB) (Cl cl : Nat) (hcon : HonestDB con)
    (st : ExpandState) (hinv : ExclusionInv Cl st) :
    ExclusionInv Cl (expandStep con Cl cl st).1 := by
  apply stepTail_exclusion
  · exact updateCache_comp_exclusion con hcon Cl st hinv _
  · apply batch_ids_none con hcon
    intro q hq
    exact (collectRxnIds_mem st _ q hq).1
  · exact batch_pairwise con hcon _ (collectRxnIds_nodup st _)

theorem expandLoop_exclusion (con : MineDB) (Cl cl : Nat) (hcon : HonestDB con) :
    ∀ (n : Nat) (st : ExpandState), ExclusionInv Cl st →
      ExclusionInv Cl (expandLoop con Cl cl n st) := by
  intro n
  induction n with
  | zero => intro st h; exact h
  | succ n ih =>
    intro st h
    have hp := expandStep_exclusion con Cl cl hcon st h
    by_cases hb : (expandStep con Cl cl st).2 = true
    · have he : expandLoop con Cl cl (n + 1) st = (expandStep con Cl cl st).1 := by
        show (if (expandStep con Cl cl st).2 = true then (expandStep con Cl cl st).1
              else expandLoop con Cl cl n (expandStep con Cl cl st).1) = _
        rw [if_pos hb]
      rw [he]
      exact hp
    · have he : expandLoop con Cl cl (n + 1) st =
          expandLoop con Cl cl n (expandStep con Cl cl st).1 := by
        show (if (expandStep con Cl cl st).2 = true then (expandStep con Cl cl st).1
              else expandLoop con Cl cl n (expandStep con Cl cl st).1) = _
        rw [if_neg hb]
      rw [he]
      exact ih _ hp

theorem processRxn_exceeding_mono (Cl cl : Nat) (st : ExpandState)
    (rxn : Record) :
    (∀ x ∈ st.comp_exceeding_C_limit,
      x ∈ (processRxn Cl cl st rxn).1.comp_exceeding_C_limit) ∧
    (∀ x ∈ st.rxn_exceeding_C_limit,
      x ∈ (processRxn Cl cl st rxn).1.rxn_exceeding_C_limit) := by
  cases hI : rxn._id with
  | none =>
    have he : processRxn Cl cl st rxn = (st, false) := by
      unfold processRxn
      rw [hI]
    rw [he]
    exact ⟨fun x hx => hx, fun x hx => hx⟩
  | some rxn_id =>
    have he0 : processRxn Cl cl st rxn =
        (match walkRxnComps Cl st.comp_dict st.comp_cache
            (ExtractReactionCompIds rxn) [] with
         | Sum.inr cid =>
           ({ st with
               comp_exceeding_C_limit := setInsert st.comp_exceeding_C_limit cid,
               rxn_exceeding_C_limit := setInsert st.rxn_exceeding_C_limit rxn_id },
            false)
         | Sum.inl new_rxn_comp_ids =>
           if rxn_id ∈ st.rxn_exceeding_C_limit then (st, false)
           else
             harvestComps cl new_rxn_comp_ids
               { st with rxn_dict := dictInsert st.rxn_dict rxn_id rxn }) := by
      unfold processRxn
      rw [hI]
    cases hw : walkRxnComps Cl st.comp_dict st.comp_cache
        (ExtractReactionCompIds rxn) [] with
    | inr cid =>
      rw [he0, hw]
      constructor
      · intro x hx
        show x ∈ setInsert st.comp_exceeding_C_limit cid
        exact mem_setInsert.2 (Or.inr hx)
      · intro x hx
        show x ∈ setInsert st.rxn_exceeding_C_limit rxn_id
        exact mem_setInsert.2 (Or.inr hx)
    | inl new_ids =>
      rw [he0, hw]
      show (∀ x ∈ st.comp_exceeding_C_limit,
          x ∈ (if rxn_id ∈ st.rxn_exceeding_C_limit then (st, false)
               else harvestComps cl new_ids
                 { st with rxn_dict := dictInsert st.rxn_dict rxn_id rxn
                 }).1.comp_exceeding_C_limit) ∧
        (∀ x ∈ st.rxn_exceeding_C_limit,
          x ∈ (if rxn_id ∈ st.rxn_exceeding_C_limit then (st, false)
               else harvestComps cl new_ids
                 { st with rxn_dict := dictInsert st.rxn_dict rxn_id rxn
                 }).1.rxn_exceeding_C_limit)
      by_cases hm : rxn_id ∈ st.rxn_exceeding_C_limit
      · rw [if_pos hm]
        exact ⟨fun x hx => hx, fun x hx => hx⟩
      · rw [if_neg hm]
        have hf := harvestComps_fields cl new_ids
          { st with rxn_dict := dictInsert st.rxn_dict rxn_id rxn }
        constructor
        · intro x hx
          rw [hf.2.2.1]
          exact hx
        · intro x hx
          rw [hf.2.2.2]
          exact hx

theorem processRxns_exceeding_mono (Cl cl : Nat) :
    ∀ (l : List (Option Record)) (st : ExpandState),
      (∀ x ∈ st.comp_exceeding_C_limit,
        x ∈ (processRxns Cl cl l st).1.comp_exceeding_C_limit) ∧
      (∀ x ∈ st.rxn_exceeding_C_limit,
        x ∈ (processRxns Cl cl l st).1.rxn_exceeding_C_limit) := by
  intro l
  induction l with
  | nil => intro st; exact ⟨fun x hx => hx, fun x hx => hx⟩
  | cons o rest ih =>
    intro st
    cases o with
    | none => exact ih st
    | some rxn =>
      have hp := processRxn_exceeding_mono Cl cl st rxn
      by_cases hb : (processRxn Cl cl st rxn).2 = true
      · have he : processRxns Cl cl (some rxn :: rest) st =
            processRxn Cl cl st rxn := by
          show (if (processRxn Cl cl st rxn).2 = true then processRxn Cl cl st rxn
                else processRxns Cl cl rest (processRxn Cl cl st rxn).1) = _
          rw [if_pos hb]
        rw [he]
        exact hp
      · have he : processRxns Cl cl (some rxn :: rest) st =
            processRxns Cl cl rest (processRxn Cl cl st rxn).1 := by
          show (if (processRxn Cl cl st rxn).2 = true then processRxn Cl cl st rxn
                else processRxns Cl cl rest (processRxn Cl cl st rxn).1) = _
          rw [if_neg hb]
        rw [he]
        have hr := ih (processRxn Cl cl st rxn).1
        exact ⟨fun x hx => hr.1 x (hp.1 x hx), fun x hx => hr.2 x (hp.2 x hx)⟩

theorem stepTail_exceeding_mono (Cl cl : Nat) (rxns : List (Option Record))
    (st1 : ExpandState) (un : List String) :
    (∀ x ∈ st1.comp_exceeding_C_limit,
      x ∈ (if (processRxns Cl cl rxns st1).2 then processRxns Cl cl rxns st1
           else ({ (processRxns Cl cl rxns st1).1 with
                   extended_comp_ids :=
                     (processRxns Cl cl rxns st1).1.extended_comp_ids ++ un },
                 false)).1.comp_exceeding_C_limit) ∧
    (∀ x ∈ st1.rxn_exceeding_C_limit,
      x ∈ (if (processRxns Cl cl rxns st1).2 then processRxns Cl cl rxns st1
           else ({ (processRxns Cl cl rxns st1).1 with
                   extended_comp_ids :=
                     (processRxns Cl cl rxns st1).1.extended_comp_ids ++ un },
                 false)).1.rxn_exceeding_C_limit) := by
  have hp := processRxns_exceeding_mono Cl cl rxns st1
  by_cases hb : (processRxns Cl cl rxns st1).2 = true
  · rw [if_pos hb]
    exact hp
  · rw [if_neg hb]
    exact hp

theorem expandStep_exceeding_mono (con : MineDB) (Cl cl : Nat)
    (st : ExpandState) :
    (∀ x ∈ st.comp_exceeding_C_limit,
      x ∈ (expandStep con Cl cl st).1.comp_exceeding_C_limit) ∧
    (∀ x ∈ st.rxn_exceeding_C_limit,
      x ∈ (expandStep con Cl cl st).1.rxn_exceeding_C_limit) := by
  exact stepTail_exceeding_mono Cl cl
    (ThreadedGetRxns con (collectRxnIds st
      ((dictKeys st.comp_dict).filter
        (fun k => !(decide (k ∈ st.extended_comp_ids))))))
    { st with
      comp_cache := updateCache st.comp_cache
        (ThreadedGetComps con (collectCompIds st
          (ThreadedGetRxns con (collectRxnIds st
            ((dictKeys st.comp_dict).filter
              (fun k => !(decide (k ∈ st.extended_comp_ids)))))))) }
    ((dictKeys st.comp_dict).filter
      (fun k => !(decide (k ∈ st.extended_comp_ids))))

theorem expandLoop_exceeding_mono (con : MineDB) (Cl cl : Nat) :
    ∀ (n : Nat) (st : ExpandState),
      (∀ x ∈ st.comp_exceeding_C_limit,
        x ∈ (expandLoop con Cl cl n st).comp_exceeding_C_limit) ∧
      (∀ x ∈ st.rxn_exceeding_C_limit,
        x ∈ (expandLoop con Cl cl n st).rxn_exceeding_C_limit) := by
  intro n
  induction n with
  | zero => intro st; exact ⟨fun x hx => hx, fun x hx => hx⟩
  | succ n ih =>
    intro st
    have hp := expandStep_exceeding_mono con Cl cl st
    by_cases hb : (expandStep con Cl cl st).2 = true
    · have he : expandLoop con Cl cl (n + 1) st = (expandStep con Cl cl st).1 := by
        show (if (expandStep con Cl cl st).2 = true then (expandStep con Cl cl st).1
              else expandLoop con Cl cl n (expandStep con Cl cl st).1) = _
        rw [if_pos hb]
      rw [he]
      exact hp
    · have he : expandLoop con Cl cl (n + 1) st =
          expandLoop con Cl cl n (expandStep con Cl cl st).1 := by
        show (if (expandStep con Cl cl st).2 = true then (expandStep con Cl cl st).1
              else expandLoop con Cl cl n (expandStep con Cl cl st).1) = _
        rw [if_neg hb]
      rw [he]
      have hr := ih (expandStep con Cl cl st).1
      exact ⟨fun x hx => hr.1 x (hp.1 x hx), fun x hx => hr.2 x (hp.2 x hx)⟩

/-- C5: carbon-limit exclusion is monotone for one `GetRawNetwork` run over
an honest database (fetched records carry the queried id as `_id`): the
exceeding sets only ever grow across loop iterations, and an id in the
final compounds-exceeding (resp. reactions-exceeding) set is never a key of
the `comp_dict` (resp. `rxn_dict`) the run ultimately returns. -/
theorem getRawNetwork_exclusion_monotone (con : MineDB) (hcon : HonestDB con)
    (ids : List String) (sl cl Cl : Nat) :
    (∀ (n : Nat) (st : ExpandState),
      (∀ x ∈ st.comp_exceeding_C_limit,
        x ∈ (expandLoop con Cl cl n st).comp_exceeding_C_limit) ∧
      (∀ x ∈ st.rxn_exceeding_C_limit,
        x ∈ (expandLoop con Cl cl n st).rxn_exceeding_C_limit)) ∧
    (∀ x ∈ (GetRawNetworkState con ids sl cl Cl).comp_exceeding_C_limit,
      alookup (GetRawNetwork con ids sl cl Cl).1 x = none) ∧
    (∀ x ∈ (GetRawNetworkState con ids sl cl Cl).rxn_exceeding_C_limit,
      alookup (GetRawNetwork con ids sl cl Cl).2 x = none) := by
  have hinit : ExclusionInv Cl
      { comp_dict := (seedResult con ids Cl).1,
        rxn_dict := [],
        comps := (seedResult con ids Cl).2,
        extended_comp_ids := [],
        rxn_exceeding_C_limit := [],
        comp_exceeding_C_limit := [],
        comp_cache := [] } := by
    refine ⟨?_, ?_, ?_⟩
    · intro x hx
      exact absurd hx (List.not_mem_nil x)
    · intro x hx
      exact absurd hx (List.not_mem_nil x)
    · intro x hx
      exact absurd hx (List.not_mem_nil x)
  have hfin : ExclusionInv Cl (GetRawNetworkState con ids sl cl Cl) :=
    expandLoop_exclusion con Cl cl hcon sl _ hinit
  exact ⟨expandLoop_exceeding_mono con Cl cl,
    fun x hx => hfin.2.1 x hx, fun x hx => hfin.2.2 x hx⟩

/-- Honest fixture database for the C5 witness: seed compound `A` partakes
in reaction `R1`, which produces the 99-carbon compound `B`. -/
def dbC5 : MineDB :=
  { getComp := fun s =>
      if s = "A" then
        some { _id := some "A", Formula := some "C1H4",
               Reactant_in := some ["R1"] }
      else if s = "B" then
        some { _id := some "B", Formula := some "C99H2" }
      else none,
    getRxn := fun s =>
      if s = "R1" then
        some { _id := some "R1", Reactants := some [(1, "A")],
               Products := some [(1, "B")] }
      else none }

theorem dbC5_honest : HonestDB dbC5 := by
  constructor
  · intro i c hc
    have hc' : (if i = "A" then
        some ({ _id := some "A", Formula := some "C1H4",
                Reactant_in := some ["R1"] } : Record)
      else if i = "B" then
        some ({ _id := some "B", Formula := some "C99H2" } : Record)
      else none) = some c := hc
    by_cases hA : i = "A"
    · rw [if_pos hA] at hc'
      have hcc :
          ({ _id := some "A", Formula := some "C1H4",
             Reactant_in := some ["R1"] } : Record) = c := by
        injection hc'
      rw [← hcc, hA]
    · rw [if_neg hA] at hc'
      by_cases hB : i = "B"
      · rw [if_pos hB] at hc'
        have hcc : ({ _id := some "B", Formula := some "C99H2" } : Record) = c := by
          injection hc'
        rw [← hcc, hB]
      · rw [if_neg hB] at hc'
        exact absurd hc' (by simp)
  · intro i r hr
    have hr' : (if i = "R1" then
        some ({ _id := some "R1", Reactants := some [(1, "A")],
                Products := some [(1, "B")] } : Record)
      else none) = some r := hr
    by_cases hR : i = "R1"
    · rw [if_pos hR] at hr'
      have hrr :
          ({ _id := some "R1", Reactants := some [(1, "A")],
             Products := some [(1, "B")] } : Record) = r := by
        injection hr'
      rw [← hrr, hR]
    · rw [if_neg hR] at hr'
      exact absurd hr' (by simp)

/-- Witness for C5 at a concrete input: the run from seed `A` marks
compound `B` and reaction `R1` as exceeding, and indeed neither is a key of
the returned dictionaries. -/
theorem getRawNetwork_exclusion_monotone_witness :
    ("B" ∈ (GetRawNetworkState dbC5 ["A"] 1 100 5).comp_exceeding_C_limit ∧
      alookup (GetRawNetwork dbC5 ["A"] 1 100 5).1 "B" = none) ∧
    ("R1" ∈ (GetRawNetworkState dbC5 ["A"] 1 100 5).rxn_exceeding_C_limit ∧
      alookup (GetRawNetwork dbC5 ["A"] 1 100 5).2 "R1" = none) :=
  ⟨⟨by decide,
    (getRawNetwork_exclusion_monotone dbC5 dbC5_honest ["A"] 1 100 5).2.1 "B"
      (by decide)⟩,
   ⟨by decide,
    (getRawNetwork_exclusion_monotone dbC5 dbC5_honest ["A"] 1 100 5).2.2 "R1"
      (by decide)⟩⟩

end MinetCreate
